import Mathlib

/-!
Shallow embedding of the page-ordering engine of `myAgent/agents/pageOrderingAgent.py`
(class `PageOrderingAgent`), together with theorems settling the frozen claims about it.

Modelling conventions:
* Python floats are modelled as exact rationals (`ℚ`); every constant in the source
  (0.6, 0.4, 0.3, ...) is an exact decimal, so the control flow of the embedded code
  matches the source wherever the inputs are exact.
* A Python page dict is the structure `Page`.  Object identity (needed to model the
  in-place `original_index` mutation at the end of `determine_page_order`) is tracked
  by the ghost field `pid`: `dict.copy()` produces a fresh object, modelled by
  clearing `pid`; a page inserted into a list without copying keeps its `pid`.
* The two external services (the sentence-embedding model producing the cosine
  similarity matrix and the LLM oracle) are inputs of the embedding: `sim` is the
  similarity matrix and `OracleOutcome` is the outcome of the oracle call together
  with the result of the free-text parsing cascade (`llm_agent.query` plus the
  regex/JSON extraction of strategies 1-3, which operate on the opaque response text).
* Python dict lookups with a default (`d.get(k, v)`) are modelled with `Option.getD`;
  the transition-score dict is a function `Nat × Nat → Option ℚ` that is `none`
  exactly on the keys the source never inserts.
* The regular expressions of `_calculate_flow_score` are embedded as explicit
  scanners over `List Char` computing the same match lists as `re.findall` does on
  the three fixed patterns (word-boundary semantics unfolded by hand; see the
  comments at each scanner).
-/

/-- PageRecord: one page dict as produced by extraction and consumed by the
ordering engine.  `original_index` models presence of the optional
`original_index` key; `pid` is the ghost object identity (see module comment). -/
structure Page where
  page_number : Nat
  text : String
  is_empty : Bool
  confidence : ℚ
  original_index : Option Nat := none
  pid : Option Nat := none
deriving DecidableEq

instance : Inhabited Page :=
  ⟨{ page_number := 0, text := "", is_empty := false, confidence := 0 }⟩

/-- Transition-score dictionary keyed by ordered index pairs; `none` models an
absent key. -/
abbrev Scores := Nat × Nat → Option ℚ

/-- Python `transition_scores.get((i, j), 0)`. -/
def pyGetScore (scores : Scores) (i j : Nat) : ℚ :=
  (scores (i, j)).getD 0

/-! ### Text utilities (`List Char` level)

Python string operations used by the source, re-implemented over `List Char`
so that they compute by kernel reduction. -/

/-- Python `s.startswith(pat)` on char lists: `startsList l pat` is true iff
`pat` is an initial segment of `l`. -/
def startsList : List Char → List Char → Bool
  | _, [] => true
  | [], _ :: _ => false
  | c :: cs, p :: ps => (c == p) && startsList cs ps

/-- Python `pat in s` on char lists: `hasSub l pat` is true iff `pat` occurs
contiguously in `l`. -/
def hasSub : List Char → List Char → Bool
  | [], pat => pat.isEmpty
  | c :: cs, pat => startsList (c :: cs) pat || hasSub cs pat

/-- Python `s.lower()` (ASCII). -/
def lowerStr (l : List Char) : List Char := l.map Char.toLower

/-- Python `s.upper()` (ASCII). -/
def upperStr (l : List Char) : List Char := l.map Char.toUpper

/-- Python `s.strip()`. -/
def trimList (l : List Char) : List Char :=
  ((l.dropWhile Char.isWhitespace).reverse.dropWhile Char.isWhitespace).reverse

/-- Regex `\w`: a word character (ASCII fragment of Python `re`). -/
def isWordChar (c : Char) : Bool := c.isAlphanum || c == '_'

/-- Character of the class `[ivxlcdm]` under `re.IGNORECASE`. -/
def isRomanChar (c : Char) : Bool :=
  ['i', 'v', 'x', 'l', 'c', 'd', 'm'].contains c.toLower

/-- Python `int(s)` for a non-empty string of decimal digits. -/
def natOfDigits (ds : List Char) : Nat :=
  ds.foldl (fun n c => n * 10 + (c.toNat - '0'.toNat)) 0

/-- Lexer: maximal runs of word characters (`\w+`) together with the separator
run that follows each word.  Fuel is the input length, which strictly bounds
the recursion (each step consumes at least the non-empty word). -/
def lexWordsAux : Nat → List Char → List (List Char × List Char)
  | 0, _ => []
  | fuel + 1, l =>
    let l₁ := l.dropWhile (fun c => !isWordChar c)
    let w := l₁.takeWhile isWordChar
    let rest := l₁.dropWhile isWordChar
    let gap := rest.takeWhile (fun c => !isWordChar c)
    if w.isEmpty then [] else (w, gap) :: lexWordsAux fuel rest

/-- All `\w+` words of `l`, each with the following separator run. -/
def lexWords (l : List Char) : List (List Char × List Char) :=
  lexWordsAux l.length l

/-! ### `_calculate_flow_score` -/

/-- The `flow_indicators` heading-pair table of `_calculate_flow_score`. -/
def flowIndicators : List (String × String) :=
  [("executive summary", "problem statement"),
   ("introduction", "methodology"),
   ("problem statement", "solution"),
   ("abstract", "introduction"),
   ("section 1", "section 2"),
   ("part i", "part ii"),
   ("chapter 1", "chapter 2"),
   ("conclusion", "references"),
   ("summary", "references")]

/-- First rule of `_calculate_flow_score`: some heading pair occurs in
`text_before.lower().strip()` / `text_after.lower().strip()`. -/
def headingHit (a b : List Char) : Bool :=
  let la := trimList (lowerStr a)
  let lb := trimList (lowerStr b)
  flowIndicators.any (fun pr => hasSub la pr.1.data && hasSub lb pr.2.data)

/-- Keyword alternative `(article|part|chapter)` under `re.IGNORECASE`. -/
def romanKeyword (w : List Char) : Bool :=
  let lw := lowerStr w
  lw == ("article".data) || lw == ("part".data) || lw == ("chapter".data)

/-- Match list of `re.findall(r"\b(article|part|chapter)\s+([ivxlcdm]+)\b", t, I)`,
returning the second capture group of each match (original case).  Because the
pattern is anchored on word boundaries, a match is exactly: a whole word equal
to a keyword, a non-empty all-whitespace separator, and a whole word consisting
only of `[ivxlcdm]` characters.  No keyword is itself all-roman, so matches
never overlap and `findall` returns every such adjacent word pair. -/
def romanGroups (l : List Char) : List (List Char) :=
  let ws := lexWords l
  (ws.zip ws.tail).filterMap (fun pr =>
    if romanKeyword pr.1.1 && !pr.1.2.isEmpty && pr.1.2.all Char.isWhitespace &&
       !pr.2.1.isEmpty && pr.2.1.all isRomanChar
    then some pr.2.1 else none)

/-- The `roman_numerals` dict of the article/part/chapter check (`i`..`x`). -/
def romanVal10 (w : List Char) : Option Nat :=
  (([("i", 1), ("ii", 2), ("iii", 3), ("iv", 4), ("v", 5), ("vi", 6),
     ("vii", 7), ("viii", 8), ("ix", 9), ("x", 10)] :
      List (String × Nat)).find? (fun pr => pr.1.data == w)).map Prod.snd

/-- The extended `roman_numerals` dict of the clause check (`i`..`xx`). -/
def romanVal20 (w : List Char) : Option Nat :=
  (([("i", 1), ("ii", 2), ("iii", 3), ("iv", 4), ("v", 5), ("vi", 6),
     ("vii", 7), ("viii", 8), ("ix", 9), ("x", 10), ("xi", 11), ("xii", 12),
     ("xiii", 13), ("xiv", 14), ("xv", 15), ("xvi", 16), ("xvii", 17),
     ("xviii", 18), ("xix", 19), ("xx", 20)] :
      List (String × Nat)).find? (fun pr => pr.1.data == w)).map Prod.snd

/-- Second rule of `_calculate_flow_score`: the last `(article|part|chapter)`
numeral of the first 200 chars of `text_before` is exactly one less than the
first such numeral of `text_after`. -/
def romanRuleHit (a b : List Char) : Bool :=
  let rb := romanGroups (a.take 200)
  let ra := romanGroups (b.take 200)
  match rb.getLast?, ra.head? with
  | some lw, some fw =>
    match romanVal10 (lowerStr lw), romanVal10 (lowerStr fw) with
    | some lv, some fv => fv == lv + 1
    | _, _ => false
  | _, _ => false

/-- One match of `re.findall(r"([ivxlcdm]+)\)|(\d+)\)", t, I)`: either the roman
group or the numeric group is non-empty. -/
inductive ClauseTok where
  | roman (s : List Char)
  | num (n : Nat)
deriving DecidableEq

/-- Scanner for the clause pattern.  `rev` is the reversed prefix already read.
A match of the alternation ends at each `)` whose immediately preceding
character is a roman-class char (group 1: the maximal preceding roman run) or a
digit (group 2: the maximal preceding digit run); matches at distinct `)` never
overlap because a run cannot contain `)`. -/
def clauseToksAux : List Char → List Char → List ClauseTok
  | _, [] => []
  | rev, c :: rest =>
    if c == ')' then
      match rev with
      | [] => clauseToksAux (c :: rev) rest
      | p :: _ =>
        if isRomanChar p then
          ClauseTok.roman (rev.takeWhile isRomanChar).reverse :: clauseToksAux (c :: rev) rest
        else if p.isDigit then
          ClauseTok.num (natOfDigits (rev.takeWhile Char.isDigit).reverse) :: clauseToksAux (c :: rev) rest
        else clauseToksAux (c :: rev) rest
    else clauseToksAux (c :: rev) rest

/-- All clause-enumeration matches of a text. -/
def clauseToks (l : List Char) : List ClauseTok :=
  clauseToksAux [] l

/-- Value of `last_clause` / `first_clause`: the loop in the source overwrites
the variable at every match, so both end up holding the value of the *last*
match (roman groups lowered, numeric groups converted by `int`). -/
def clauseVal : ClauseTok → Sum (List Char) Nat
  | .roman s => .inl (lowerStr s)
  | .num n => .inr n

/-- Python truthiness of a clause value (`if last_clause and first_clause`):
a non-empty string is truthy, the integer 0 is falsy. -/
def clauseTruthy : Sum (List Char) Nat → Bool
  | .inl s => !s.isEmpty
  | .inr n => n != 0

/-- Third rule of `_calculate_flow_score`: consecutive clause enumerations in
the first 300 chars of each side; roman pairs score 0.75, integer pairs 0.7,
everything else falls through (`none`). -/
def clauseRule (a b : List Char) : Option ℚ :=
  let cb := clauseToks (a.take 300)
  let ca := clauseToks (b.take 300)
  if cb.isEmpty || ca.isEmpty then none
  else
    match cb.getLast?.map clauseVal, ca.getLast?.map clauseVal with
    | some lv, some fv =>
      if clauseTruthy lv && clauseTruthy fv then
        match lv, fv with
        | .inl ls, .inl fs =>
          match romanVal20 ls, romanVal20 fs with
          | some l, some f => if f == l + 1 then some (3/4) else none
          | _, _ => none
        | .inr l, .inr f => if f == l + 1 then some (7/10) else none
        | _, _ => none
      else none
    | _, _ => none

/-- Match list of `re.findall(r"\b(\d+)\b", t)`: whole words consisting only of
digits, converted by `int`. -/
def numWords (l : List Char) : List Nat :=
  (lexWords l).filterMap (fun pr =>
    if !pr.1.isEmpty && pr.1.all Char.isDigit then some (natOfDigits pr.1) else none)

/-- Fourth rule of `_calculate_flow_score`: the last bare integer of the first
100 chars of `text_before` plus one equals the first bare integer of
`text_after`. -/
def numberRuleHit (a b : List Char) : Bool :=
  match (numWords (a.take 100)).getLast?, (numWords (b.take 100)).head? with
  | some l, some f => f == l + 1
  | _, _ => false

/-- `_calculate_flow_score(text_before, text_after)`. -/
def calculateFlowScore (textBefore textAfter : String) : ℚ :=
  let a := textBefore.data
  let b := textAfter.data
  if a.isEmpty || b.isEmpty then 0
  else if headingHit a b then 8/10
  else if romanRuleHit a b then 7/10
  else
    match clauseRule a b with
    | some v => v
    | none => if numberRuleHit a b then 6/10 else 3/10

/-! ### `_calculate_transition_scores` -/

/-- First `n` characters of a page text as a string (Python `text[:n]`). -/
def textFirst (p : Page) (n : Nat) : String :=
  ⟨p.text.data.take n⟩

/-- `_calculate_transition_scores(pages, embeddings, similarity_matrix)`: the
dict holding `similarity[i][j]*0.6 + flow(text_i[:500], text_j[:500])*0.4` for
every ordered pair `i ≠ j` of indices into `pages`.  The similarity matrix is
an input (it is computed by the external embedding model). -/
def calculateTransitionScores (pages : List Page) (sim : Nat → Nat → ℚ) : Scores :=
  fun ij =>
    if ij.1 < pages.length ∧ ij.2 < pages.length ∧ ij.1 ≠ ij.2 then
      some (sim ij.1 ij.2 * (6/10) +
        calculateFlowScore (textFirst (pages.getD ij.1 default) 500)
          (textFirst (pages.getD ij.2 default) 500) * (4/10))
    else none

/-! ### Oracle interface and `_llm_determine_order` -/

/-- Result shape of `_llm_determine_order`: always a dict with an `order` list
and a `reasoning` string. -/
structure OrderResult where
  order : List Int
  reasoning : String
deriving DecidableEq

/-- Outcome of the oracle call as seen by `_llm_determine_order`:
`queryFailed` models `not result.get('success')`; `response po rs` models a
successful transport whose free-text answer the parsing cascade (strategies
1-3 over the opaque response string) reduced to the optional integer list `po`
and the reasoning string `rs`. -/
inductive OracleOutcome where
  | queryFailed
  | response (parsedOrder : Option (List Int)) (reasoning : String)
deriving DecidableEq

/-- `list(range(n))` as a list of Python ints. -/
def identityOrder (n : Nat) : List Int :=
  (List.range n).map Int.ofNat

/-- The validation `len(parsed_order) == len(pages) and set(parsed_order) ==
set(range(len(pages)))`. -/
def isValidPerm (n : Nat) (o : List Int) : Bool :=
  o.length == n &&
  (List.range n).all (fun i => o.contains (Int.ofNat i)) &&
  o.all (fun x => decide (0 ≤ x) && decide (x < (n : Int)))

/-! ### Greedy path construction (`_create_path_from_transitions` and
`_create_embedding_based_order`) -/

/-- Insertion into a sorted list (ascending). -/
def insertAsc (x : Nat) : List Nat → List Nat
  | [] => [x]
  | y :: ys => if x ≤ y then x :: y :: ys else y :: insertAsc x ys

/-- Python `sorted` on a list of naturals. -/
def sortAsc : List Nat → List Nat
  | [] => []
  | x :: xs => insertAsc x (sortAsc xs)

/-- Total outgoing transition score `sum(transition_scores.get((i, j), 0) for j
in range(n))`. -/
def outgoingSum (scores : Scores) (n i : Nat) : ℚ :=
  ((List.range n).map (pyGetScore scores i)).sum

/-- Start-page selection of `_create_path_from_transitions`: first index
attaining the maximal outgoing sum (the loop updates only on strict
improvement). -/
def greedyStart (scores : Scores) (n : Nat) : Nat :=
  ((List.range' 1 (n - 1)).foldl
    (fun best i =>
      if outgoingSum scores n i > best.2 then (i, outgoingSum scores n i) else best)
    (0, outgoingSum scores n 0)).1

/-- One iteration of the `for next_idx in remaining:` selection loop (strict
improvement over the best score seen so far). -/
def stepBest (scores : Scores) (current : Nat) (best : Option Nat × ℚ) (nxt : Nat) :
    Option Nat × ℚ :=
  if pyGetScore scores current nxt > best.2 then (some nxt, pyGetScore scores current nxt)
  else best

/-- The inner selection loop: `best_next = None; best_score = -1; for next_idx
in remaining: ...`.  CPython iterates a set of small ints in ascending order,
which is how `remaining` is kept here. -/
def bestNextP (scores : Scores) (current : Nat) (remaining : List Nat) : Option Nat × ℚ :=
  remaining.foldl (stepBest scores current) (none, -1)

/-- The greedy `while remaining:` loop of `_create_path_from_transitions`.
Fuel is the initial size of `remaining`; each looping step removes exactly one
element, so `remaining.length ≤ fuel` is an invariant and the fuel never runs
out on the calls the source makes. -/
def greedyLoopAux (scores : Scores) : Nat → Nat → List Nat → List Nat
  | 0, _, _ => []
  | fuel + 1, current, remaining =>
    if remaining.isEmpty then []
    else
      match (bestNextP scores current remaining).1 with
      | some nxt => nxt :: greedyLoopAux scores fuel nxt (remaining.erase nxt)
      | none => sortAsc remaining
def greedyLoop (scores : Scores) (current : Nat) (remaining : List Nat) : List Nat :=
  greedyLoopAux scores remaining.length current remaining

/-- Index path produced by `_create_path_from_transitions` for `n` pages. -/
def pathIndices (scores : Scores) (n : Nat) : List Nat :=
  let s := greedyStart scores n
  s :: greedyLoop scores s ((List.range n).filter (fun i => i != s))

/-- `page_copy = pages[idx].copy(); page_copy['original_index'] = idx`.  The
copy is a fresh object, hence `pid := none`. -/
def withOrigIdx (p : Page) (i : Nat) : Page :=
  { p with original_index := some i, pid := none }

/-- `_create_path_from_transitions(pages, transition_scores)`. -/
def createPathFromTransitions (pages : List Page) (scores : Scores) : List Page :=
  if pages.isEmpty then []
  else (pathIndices scores pages.length).map (fun i => withOrigIdx (pages.getD i default) i)

/-- Title-page score of one page in `_create_embedding_based_order`
(`start_candidates` loop). -/
def startScore (p : Page) : Int :=
  let text := upperStr p.text.data
  (if hasSub text ("LOAN AGREEMENT".data) && hasSub text ("BETWEEN".data) then 20 else 0) +
  (if hasSub text ("LOAN AGREEMENT".data) then 15 else 0) +
  (if hasSub text ("ARTICLE".data) &&
      (hasSub (text.take 100) ("I".data) || hasSub (text.take 100) ("1".data) ||
       hasSub (text.take 100) ("ONE".data)) then 12 else 0) +
  (if hasSub text ("DEFINITIONS".data) then 10 else 0) +
  (if startsList text ("LOAN AGREEMENT".data) then 15 else 0) +
  (((text.splitOn '\n').take 3).foldl
    (fun acc line =>
      acc + (if hasSub line ("AGREEMENT".data) && line.length < 100 then 8 else 0) +
        (if hasSub line ("BETWEEN".data) && hasSub line ("AND".data) then 8 else 0)) 0) +
  (if startsList text ("-".data) || startsList text ("...".data) then -5 else 0) +
  (if hasSub (text.take 200) ("CONTINUED".data) || hasSub (text.take 200) ("CONTINUATION".data)
    then -3 else 0) +
  (if (["AS SET FORTH", "AS PROVIDED", "PURSUANT TO"] : List String).any
      (fun w => hasSub (text.take 200) w.data) then -2 else 0)

/-- `start_candidates.sort(reverse=True); start_candidates[0][1]`: the index of
the lexicographically greatest `(score, index)` pair (ties on the score are won
by the larger index, as in descending tuple order). -/
def pickStart (pages : List Page) : Nat :=
  match pages.enum.map (fun ip => (startScore ip.2, ip.1)) with
  | [] => 0
  | c :: cs =>
    (cs.foldl (fun b x => if x.1 > b.1 || (x.1 == b.1 && x.2 > b.2) then x else b) c).2

/-- The greedy loop of `_create_embedding_based_order`: follows the best
transition only while `best_score > 0.3`, otherwise appends the remaining
indices in ascending order.  Fuel as in `greedyLoopAux`. -/
def greedyLoopTAux (scores : Scores) : Nat → Nat → List Nat → List Nat
  | 0, _, _ => []
  | fuel + 1, current, remaining =>
    if remaining.isEmpty then []
    else
      let bp := bestNextP scores current remaining
      match bp.1 with
      | some nxt =>
        if bp.2 > 3/10 then nxt :: greedyLoopTAux scores fuel nxt (remaining.erase nxt)
        else sortAsc remaining
      | none => sortAsc remaining
def greedyLoopT (scores : Scores) (current : Nat) (remaining : List Nat) : List Nat :=
  greedyLoopTAux scores remaining.length current remaining

/-- `_create_embedding_based_order(pages, transition_scores)`. -/
def createEmbeddingBasedOrder (pages : List Page) (scores : Scores) : List Nat :=
  if pages.length ≤ 1 then List.range pages.length
  else
    let s := pickStart pages
    s :: greedyLoopT scores s ((List.range pages.length).filter (fun i => i != s))

/-! ### `_llm_determine_order` -/

/-- Reasoning string attached by the source when the oracle response could not
be parsed into a valid permutation. -/
def unparseableReasoning : String :=
  "LLM response not parseable, using embedding similarity analysis"

/-- The embedding-based fallback `CandidateOrder` of `_llm_determine_order`. -/
def embFallback (pages : List Page) (scores : Scores) : OrderResult :=
  { order := (createEmbeddingBasedOrder pages scores).map Int.ofNat,
    reasoning := unparseableReasoning }

/-- `_llm_determine_order(pages, transition_scores)` as a function of the
oracle outcome.  The truthiness test `if parsed_order and isinstance(...)`
makes an empty parsed list fall through to the fallback. -/
def llmDetermineOrder (pages : List Page) (scores : Scores) : OracleOutcome → OrderResult
  | .queryFailed =>
    { order := identityOrder pages.length,
      reasoning := "LLM query failed, using original order" }
  | .response po rs =>
    match po with
    | some o =>
      if o.isEmpty then embFallback pages scores
      else if isValidPerm pages.length o then { order := o, reasoning := rs }
      else embFallback pages scores
    | none => embFallback pages scores

/-! ### `_combine_ordering_results` -/

/-- The validation loop of `_combine_ordering_results`: keep each in-range
index the first time it appears (the `seen_indices` set), dropping duplicates
and out-of-range entries. -/
def dedupStep (n : Nat) (acc : List Nat) (idx : Int) : List Nat :=
  if 0 ≤ idx ∧ idx < (n : Int) then
    if acc.contains idx.toNat then acc else acc ++ [idx.toNat]
  else acc
def dedupFilter (n : Nat) (lo : List Int) : List Nat :=
  lo.foldl (dedupStep n) []

/-- `_combine_ordering_results(pages, llm_order, transition_scores)`. -/
def combineOrderingResults (pages : List Page) (llmOrder : OrderResult)
    (scores : Scores) : List Page :=
  let n := pages.length
  let lo₀ := llmOrder.order
  let lo :=
    if lo₀ = identityOrder n then
      let emb := createEmbeddingBasedOrder pages scores
      if emb ≠ List.range n then emb.map Int.ofNat else lo₀
    else lo₀
  let idxs := dedupFilter n lo
  if idxs.length ≠ n then createPathFromTransitions pages scores
  else idxs.map (fun i => withOrigIdx (pages.getD i default) i)

/-! ### `_reinsert_empty_pages` -/

/-- The dict comprehension `{p['page_number']: i for i, p in
enumerate(all_original_pages)}`: position of the *last* entry carrying a page
number (later bindings win). -/
def dictPosAux (n : Nat) : Nat → List Page → Option Nat
  | _, [] => none
  | i, p :: rest =>
    match dictPosAux n (i + 1) rest with
    | some j => some j
    | none => if p.page_number == n then some i else none
def dictPos (l : List Page) (n : Nat) : Option Nat :=
  dictPosAux n 0 l

/-- Python `list.insert(i, x)` (clamping semantics for `i > len`). -/
def pyInsert {α : Type} (l : List α) (i : Nat) (x : α) : List α :=
  l.take i ++ x :: l.drop i

/-- Body of the per-empty-page loop of `_reinsert_empty_pages`: skip the page
if its number is not in the position dict (`get(..., -1) < 0`); otherwise find
the first page of the *reordered* list whose original position exceeds the
empty page's, locate it in the growing `result` by page number, and insert the
empty page right before it (appending when no such page exists). -/
def reinsertStep (orig ordered : List Page) (result : List Page) (e : Page) : List Page :=
  match dictPos orig e.page_number with
  | none => result
  | some pe =>
    let ins :=
      match ordered.find? (fun P => decide ((dictPos orig P.page_number).getD 9999 > pe)) with
      | some P =>
        match result.findIdx? (fun q => q.page_number == P.page_number) with
        | some j => j
        | none => result.length
      | none => result.length
    pyInsert result ins e

/-- `_reinsert_empty_pages(ordered_pages, empty_pages, all_original_pages)`. -/
def reinsertEmptyPages (ordered empty orig : List Page) : List Page :=
  if empty.isEmpty then ordered
  else empty.foldl (reinsertStep orig ordered) ordered

/-! ### `_calculate_confidence_scores` and `determine_page_order` -/

/-- `_calculate_confidence_scores(ordered_pages, transition_scores, llm_order)`.
The `llm_order` argument is accepted but never read by the source. -/
def calculateConfidenceScores (orderedPages : List Page) (scores : Scores)
    (_llmOrder : OrderResult) : List ℚ :=
  (List.range orderedPages.length).map (fun i =>
    let page := orderedPages.getD i default
    if page.is_empty then 1/2
    else if i == 0 then 7/10
    else
      let prev := orderedPages.getD (i - 1) default
      let prevIdx := prev.original_index.getD (i - 1)
      let currIdx := page.original_index.getD i
      if !prev.is_empty && !page.is_empty then
        min 1 ((scores (prevIdx, currIdx)).getD (1/2) + 2/10)
      else 6/10)

/-- The in-place loop `for i, page in enumerate(final_pages_with_empty): if
'original_index' not in page: page['original_index'] = i`, viewed as the final
contents of the list.  (The pages of the list are pairwise distinct objects:
the non-empty ones are fresh copies, each empty one was inserted once.) -/
def setMissingIndices (l : List Page) : List Page :=
  l.enum.map (fun ip =>
    if ip.2.original_index = none then { ip.2 with original_index := some ip.1 } else ip.2)

/-- Caller-visible result dict of `determine_page_order` (the keys the claims
are about; optional keys model the keys only some paths produce). -/
structure OrderingResult where
  success : Bool
  ordered_pages : List Page
  page_order : List Nat
  confidence_scores : List ℚ
  reasoning : Option String := none
  original_order : Option (List Nat) := none
  error : Option String := none
deriving DecidableEq

/-- `determine_page_order(pages)` with the two external calls (similarity
matrix and oracle outcome) as inputs. -/
def determinePageOrder (pages : List Page) (sim : Nat → Nat → ℚ)
    (oracle : OracleOutcome) : OrderingResult :=
  let nonEmpty := pages.filter (fun p => !p.is_empty)
  let empty := pages.filter (fun p => p.is_empty)
  if nonEmpty.length < 2 then
    { success := true,
      ordered_pages := pages,
      page_order := pages.map Page.page_number,
      confidence_scores := List.replicate pages.length 1,
      reasoning := some "Not enough pages to reorder" }
  else
    let scores := calculateTransitionScores nonEmpty sim
    let llm := llmDetermineOrder nonEmpty scores oracle
    let finalOrder := combineOrderingResults nonEmpty llm scores
    let withEmpty := reinsertEmptyPages finalOrder empty pages
    let finalPages := setMissingIndices withEmpty
    { success := true,
      ordered_pages := finalPages,
      page_order := finalPages.map Page.page_number,
      confidence_scores := calculateConfidenceScores finalPages scores llm,
      reasoning := some llm.reasoning,
      original_order := some (pages.map Page.page_number) }

/-- The `except Exception` branch of `determine_page_order`: original pages,
`success: False`, flat 0.5 confidences. -/
def errorFallbackResult (pages : List Page) (msg : String) : OrderingResult :=
  { success := false,
    error := some msg,
    ordered_pages := pages,
    page_order := pages.map Page.page_number,
    confidence_scores := List.replicate pages.length (1/2) }

/-- State of the caller's page dicts after `determine_page_order` returns: a
dict of the input list was mutated exactly when it was aliased into
`final_pages_with_empty` (only the empty pages are; non-empty pages enter the
result only as copies) and lacked the `original_index` key there.  `pid`
identifies the aliased objects. -/
def inputPagesAfter (pages : List Page) (sim : Nat → Nat → ℚ)
    (oracle : OracleOutcome) : List Page :=
  if (pages.filter (fun p => !p.is_empty)).length < 2 then pages
  else
    let fin := (determinePageOrder pages sim oracle).ordered_pages
    pages.map (fun p =>
      match p.pid with
      | some _ => (fin.find? (fun q => q.pid == p.pid)).getD p
      | none => p)

/-! ### Auxiliary definitions for the claim statements -/

/-- Convenience constructor for concrete page records. -/
def mkPage (n : Nat) (t : String) (e : Bool) : Page :=
  { page_number := n, text := t, is_empty := e, confidence := 1 }

/-- The greedy-step relation: `GreedySteps scores current remaining produced`
holds when `produced` arises from `remaining` by repeatedly appending an
unvisited index of maximal transition score from the current index (claim C6's
"repeatedly append the unvisited index with the highest score"). -/
inductive GreedySteps (scores : Scores) : Nat → List Nat → List Nat → Prop where
  | nil (current : Nat) : GreedySteps scores current [] []
  | cons (current n : Nat) (remaining rest : List Nat) :
      n ∈ remaining →
      (∀ m ∈ remaining, pyGetScore scores current m ≤ pyGetScore scores current n) →
      GreedySteps scores n (remaining.erase n) rest →
      GreedySteps scores current remaining (n :: rest)

/-- Concrete input for the C4 counterexample: two non-empty pages with empty
text. -/
def c4Pages : List Page := [mkPage 1 "" false, mkPage 2 "" false]

/-- Concrete input for the C8 counterexample: two non-empty pages followed by
an empty page. -/
def c8Pages : List Page :=
  [{ mkPage 1 "" false with original_index := some 0 },
   { mkPage 2 "" false with original_index := some 1 },
   mkPage 3 "" true]

/-- Transition dict for the C8 counterexample: score 0.3 on the pair the
second position looks up. -/
def c8Scores : Scores := fun p => if p = (0, 1) then some (3/10) else none

/-- Second concrete input for the C8 counterexample: an empty page in first
position. -/
def c8PagesB : List Page :=
  [mkPage 1 "" true, { mkPage 2 "" false with original_index := some 0 }]

/-- Concrete input for the C9 counterexample: two non-empty pages and one
empty page, with distinct object identities. -/
def c9Pages : List Page :=
  [{ mkPage 1 "" false with pid := some 0 },
   { mkPage 2 "" false with pid := some 1 },
   { mkPage 3 "" true with pid := some 2 }]

/-- Target of an empty page under claim C3: the first page of the reordered
sequence whose original page number exceeds the empty page's. -/
def tgtOf (ordered : List Page) (e : Page) : Option Page :=
  ordered.find? (fun Q => decide (e.page_number < Q.page_number))

/-- The placement claim C3 describes: each empty page sits in the block
immediately before its target page (blocks keep the empty-list order), and
empty pages without a target are appended at the end. -/
def interleave (ordered processed : List Page) : List Page :=
  (ordered.map (fun P =>
    processed.filter
      (fun e => (tgtOf ordered e).map Page.page_number == some P.page_number) ++ [P])).flatten
  ++ processed.filter (fun e => (tgtOf ordered e).isNone)

/-! ## Theorems -/

/-! ### Flow scorer: value lemmas -/

theorem clauseRule_cases (a b : List Char) :
    clauseRule a b = none ∨ clauseRule a b = some (3/4) ∨ clauseRule a b = some (7/10) := by
  unfold clauseRule
  dsimp only
  split
  · exact Or.inl rfl
  · split
    · split
      · split
        · split
          · split <;> simp
          · exact Or.inl rfl
        · split <;> simp
        · exact Or.inl rfl
      · exact Or.inl rfl
    · exact Or.inl rfl

theorem calculateFlowScore_cases (a b : String) :
    calculateFlowScore a b = 0 ∨ calculateFlowScore a b = 3/10 ∨
    calculateFlowScore a b = 3/5 ∨ calculateFlowScore a b = 7/10 ∨
    calculateFlowScore a b = 3/4 ∨ calculateFlowScore a b = 4/5 := by
  unfold calculateFlowScore
  dsimp only
  split
  · norm_num
  · split
    · norm_num
    · split
      · norm_num
      · rcases clauseRule_cases a.data b.data with h | h | h <;> rw [h] <;> dsimp only
        · split <;> norm_num
        · norm_num
        · norm_num

theorem calculateFlowScore_nonneg (a b : String) : 0 ≤ calculateFlowScore a b := by
  rcases calculateFlowScore_cases a b with h | h | h | h | h | h <;> rw [h] <;> norm_num

theorem calculateFlowScore_le (a b : String) : calculateFlowScore a b ≤ 4/5 := by
  rcases calculateFlowScore_cases a b with h | h | h | h | h | h <;> rw [h] <;> norm_num

/-- C7 (amended): for all input strings the Flow Scorer is total and returns
one of the rule values 0.8 / 0.7 / 0.75 / 0.6, the neutral default 0.3 when
both inputs are non-empty and no rule matches, or 0.0 when either input is
empty; every returned value lies in [0, 1].  (The claim as frozen says the
neutral default 0.3 is returned whenever no rule matches; the empty-input
guard of the source returns 0.0 instead, see the counterexample.) -/
theorem claim_C7_flow_score_amended (a b : String) :
    (0 ≤ calculateFlowScore a b ∧ calculateFlowScore a b ≤ 1) ∧
    (calculateFlowScore a b = 0 ∨ calculateFlowScore a b = 3/10 ∨
      calculateFlowScore a b = 3/5 ∨ calculateFlowScore a b = 7/10 ∨
      calculateFlowScore a b = 3/4 ∨ calculateFlowScore a b = 4/5) ∧
    ((a.data.isEmpty || b.data.isEmpty) = true → calculateFlowScore a b = 0) ∧
    ((a.data.isEmpty || b.data.isEmpty) = false →
      headingHit a.data b.data = false → romanRuleHit a.data b.data = false →
      clauseRule a.data b.data = none → numberRuleHit a.data b.data = false →
      calculateFlowScore a b = 3/10) := by
  refine ⟨⟨calculateFlowScore_nonneg a b,
      le_trans (calculateFlowScore_le a b) (by norm_num)⟩,
    calculateFlowScore_cases a b, ?_, ?_⟩
  · intro h
    simp [calculateFlowScore, h]
  · intro h h1 h2 h3 h4
    simp [calculateFlowScore, h, h1, h2, h3, h4]

/-- Witness for C7 (amended): on the concrete pair ("a", "b") no rule matches
and the score is the neutral 0.3; on ("", "b") the empty guard returns 0. -/
theorem claim_C7_witness :
    calculateFlowScore "a" "b" = 3/10 ∧ calculateFlowScore "" "b" = 0 :=
  ⟨(claim_C7_flow_score_amended "a" "b").2.2.2 (by decide) (by decide) (by decide)
      (by decide) (by decide),
   (claim_C7_flow_score_amended "" "b").2.2.1 (by decide)⟩

/-- C7 counterexample: on the pair ("", "x") none of the four enumerated rules
matches, yet the Flow Scorer returns 0.0 and not the neutral default 0.3 —
the claim "returns the neutral default 0.3 whenever no rule matches" fails on
empty input. -/
theorem claim_C7_counterexample :
    calculateFlowScore "" "x" = 0 ∧
    headingHit "".data ("x".data) = false ∧
    romanRuleHit "".data ("x".data) = false ∧
    clauseRule "".data ("x".data) = none ∧
    numberRuleHit "".data ("x".data) = false ∧
    (0 : ℚ) ≠ 3/10 :=
  ⟨by decide, by decide, by decide, by decide, by decide, by norm_num⟩

/-- C4 (amended): for every ordered pair `i ≠ j` the transition dict holds
exactly `similarity[i][j]*0.6 + FlowScorer(text_i[:500], text_j[:500])*0.4`,
and the value lies in [0, 1] **provided** the similarity entry does (the claim
as frozen asserts the range unconditionally; a negative cosine similarity
produces a negative transition score, see the counterexample). -/
theorem claim_C4_transition_formula (pages : List Page) (sim : Nat → Nat → ℚ) (i j : Nat)
    (hi : i < pages.length) (hj : j < pages.length) (hij : i ≠ j) :
    calculateTransitionScores pages sim (i, j) =
      some (sim i j * (6/10) +
        calculateFlowScore (textFirst (pages.getD i default) 500)
          (textFirst (pages.getD j default) 500) * (4/10)) ∧
    (0 ≤ sim i j → sim i j ≤ 1 →
      ∀ v, calculateTransitionScores pages sim (i, j) = some v → 0 ≤ v ∧ v ≤ 1) := by
  constructor
  · simp [calculateTransitionScores, hi, hj, hij]
  · intro h0 h1 v hv
    unfold calculateTransitionScores at hv
    rw [if_pos (show (i, j).1 < pages.length ∧ (i, j).2 < pages.length ∧ (i, j).1 ≠ (i, j).2
      from ⟨hi, hj, hij⟩)] at hv
    simp only [Option.some.injEq] at hv
    have hf0 := calculateFlowScore_nonneg (textFirst (pages.getD i default) 500)
      (textFirst (pages.getD j default) 500)
    have hf1 := calculateFlowScore_le (textFirst (pages.getD i default) 500)
      (textFirst (pages.getD j default) 500)
    constructor <;> linarith

/-- Witness for C4 (amended): the formula at the concrete pair (0, 1) of
`c4Pages` with the all-zero similarity matrix. -/
theorem claim_C4_witness :
    calculateTransitionScores c4Pages (fun _ _ => 0) (0, 1) =
      some ((fun _ _ => (0 : ℚ)) 0 1 * (6/10) +
        calculateFlowScore (textFirst (c4Pages.getD 0 default) 500)
          (textFirst (c4Pages.getD 1 default) 500) * (4/10)) :=
  (claim_C4_transition_formula c4Pages (fun _ _ => 0) 0 1 (by decide) (by decide)
    (by decide)).1

/-- C4 counterexample: with the (attainable) cosine similarity -1/2 between
the two pages of `c4Pages`, the produced transition score is -3/10, outside
[0, 1] — the unconditional range part of the claim fails. -/
theorem claim_C4_counterexample :
    calculateTransitionScores c4Pages (fun _ _ => -1/2) (0, 1) = some (-3/10) ∧
    ¬(0 : ℚ) ≤ -3/10 := by
  constructor
  · have h : calculateFlowScore (textFirst (c4Pages.getD 0 default) 500)
        (textFirst (c4Pages.getD 1 default) 500) = 0 := by decide
    unfold calculateTransitionScores
    rw [if_pos (show ((0 : Nat), (1 : Nat)).1 < c4Pages.length ∧
        ((0 : Nat), (1 : Nat)).2 < c4Pages.length ∧
        ((0 : Nat), (1 : Nat)).1 ≠ ((0 : Nat), (1 : Nat)).2 from by decide), h]
    norm_num
  · norm_num

/-! ### The greedy selection loop -/

theorem foldBest_snd_ge (scores : Scores) (current : Nat) :
    ∀ (rem : List Nat) (init : Option Nat × ℚ),
      init.2 ≤ (rem.foldl (stepBest scores current) init).2 := by
  intro rem
  induction rem with
  | nil => intro init; simp
  | cons x xs ih =>
    intro init
    rw [List.foldl_cons]
    refine le_trans ?_ (ih (stepBest scores current init x))
    unfold stepBest
    split
    · next h => exact le_of_lt h
    · exact le_refl _

theorem foldBest_spec (scores : Scores) (current : Nat) :
    ∀ (rem : List Nat) (init : Option Nat × ℚ),
      (rem.foldl (stepBest scores current) init = init ∨
        ∃ n ∈ rem, rem.foldl (stepBest scores current) init =
          (some n, pyGetScore scores current n)) ∧
      (∀ m ∈ rem, pyGetScore scores current m ≤
        (rem.foldl (stepBest scores current) init).2) := by
  intro rem
  induction rem with
  | nil => intro init; simp
  | cons x xs ih =>
    intro init
    constructor
    · rw [List.foldl_cons]
      rcases (ih (stepBest scores current init x)).1 with h | ⟨n, hn, h⟩
      · rw [h]
        unfold stepBest
        split
        · exact Or.inr ⟨x, List.mem_cons_self x xs, rfl⟩
        · exact Or.inl rfl
      · exact Or.inr ⟨n, List.mem_cons_of_mem x hn, h⟩
    · intro m hm
      rcases List.mem_cons.1 hm with rfl | hm'
      · rw [List.foldl_cons]
        refine le_trans ?_ (foldBest_snd_ge scores current xs (stepBest scores current init m))
        unfold stepBest
        split
        · exact le_refl _
        · next h => exact le_of_not_lt h
      · rw [List.foldl_cons]
        exact (ih (stepBest scores current init x)).2 m hm'

theorem bestNextP_fst_mem (scores : Scores) (current : Nat) (rem : List Nat) (n : Nat)
    (h : (bestNextP scores current rem).1 = some n) : n ∈ rem := by
  rcases (foldBest_spec scores current rem (none, -1)).1 with h' | ⟨m, hm, h'⟩
  · rw [bestNextP, h'] at h
    exact absurd h (by simp)
  · rw [bestNextP, h'] at h
    simp only [Option.some.injEq] at h
    exact h ▸ hm

theorem pyGetScore_gt_neg_one (scores : Scores) (current x : Nat)
    (hs : ∀ p v, scores p = some v → (-1 : ℚ) < v) :
    (-1 : ℚ) < pyGetScore scores current x := by
  unfold pyGetScore
  cases h : scores (current, x) with
  | none => norm_num
  | some v => exact hs _ v h

theorem bestNextP_ne_none (scores : Scores) (current : Nat) (rem : List Nat)
    (hne : rem ≠ []) (hs : ∀ p v, scores p = some v → (-1 : ℚ) < v) :
    (bestNextP scores current rem).1 ≠ none := by
  cases rem with
  | nil => exact absurd rfl hne
  | cons x xs =>
    have hx : stepBest scores current (none, -1) x =
        (some x, pyGetScore scores current x) := by
      unfold stepBest
      rw [if_pos]
      exact pyGetScore_gt_neg_one scores current x hs
    rw [bestNextP, List.foldl_cons, hx]
    rcases (foldBest_spec scores current xs (some x, pyGetScore scores current x)).1 with
      h | ⟨n, _, h⟩ <;> rw [h] <;> simp

/-- C10: the ascending-fill branch of the greedy loop in
`_create_path_from_transitions` is unreachable in the pipeline: whenever any
index remains unvisited, the selection loop (initial best score -1, missing
scores defaulting to 0) returns a `best_next`, because every score the
transition builder ever stores exceeds -1 (second conjunct: with cosine
similarities, which lie in [-1, 1], every stored score is at least -0.6). -/
theorem claim_C10_fill_unreachable (scores : Scores) (pages : List Page)
    (sim : Nat → Nat → ℚ)
    (hs : ∀ p v, scores p = some v → (-1 : ℚ) < v)
    (hsim : ∀ i j, -1 ≤ sim i j) :
    (∀ current remaining, remaining ≠ [] →
      (bestNextP scores current remaining).1 ≠ none) ∧
    (∀ p v, calculateTransitionScores pages sim p = some v → (-1 : ℚ) < v) := by
  constructor
  · intro current remaining hne
    exact bestNextP_ne_none scores current remaining hne hs
  · intro p v hv
    unfold calculateTransitionScores at hv
    split at hv
    · next hcond =>
      simp only [Option.some.injEq] at hv
      have hf := calculateFlowScore_nonneg (textFirst (pages.getD p.1 default) 500)
        (textFirst (pages.getD p.2 default) 500)
      have := hsim p.1 p.2
      linarith [hv]
    · exact absurd hv (by simp)

/-- Witness for C10: the all-missing score dict and the empty page list with
the all-zero similarity matrix. -/
theorem claim_C10_witness :
    (∀ current remaining, remaining ≠ [] →
      (bestNextP (fun _ => none) current remaining).1 ≠ none) ∧
    (∀ p v, calculateTransitionScores [] (fun _ _ => 0) p = some v → (-1 : ℚ) < v) :=
  claim_C10_fill_unreachable (fun _ => none) [] (fun _ _ => 0)
    (by intro p v h; simp at h) (by intro i j; norm_num)

/-! ### Greedy path construction: permutation and step lemmas -/

theorem insertAsc_perm (x : Nat) (l : List Nat) : (insertAsc x l).Perm (x :: l) := by
  induction l with
  | nil => exact List.Perm.refl _
  | cons y ys ih =>
    unfold insertAsc
    split
    · exact List.Perm.refl _
    · exact (ih.cons y).trans (List.Perm.swap x y ys)

theorem sortAsc_perm (l : List Nat) : (sortAsc l).Perm l := by
  induction l with
  | nil => exact List.Perm.refl _
  | cons x xs ih => exact (insertAsc_perm x (sortAsc xs)).trans (ih.cons x)

theorem greedyLoopAux_perm (scores : Scores) :
    ∀ (fuel current : Nat) (rem : List Nat), rem.length ≤ fuel →
      (greedyLoopAux scores fuel current rem).Perm rem := by
  intro fuel
  induction fuel with
  | zero =>
    intro c rem h
    rw [Nat.le_zero, List.length_eq_zero] at h
    subst h
    exact List.Perm.refl _
  | succ n ih =>
    intro c rem h
    unfold greedyLoopAux
    split
    · next he =>
      rw [List.isEmpty_iff] at he
      subst he
      exact List.Perm.refl _
    · next he =>
      rw [List.isEmpty_iff] at he
      split
      · next nxt hb =>
        have hmem := bestNextP_fst_mem scores c rem nxt hb
        have hlen : (rem.erase nxt).length ≤ n := by
          rw [List.length_erase_of_mem hmem]
          have : 1 ≤ rem.length := List.length_pos.2 he
          omega
        exact ((ih nxt (rem.erase nxt) hlen).cons nxt).trans
          (List.perm_cons_erase hmem).symm
      · exact sortAsc_perm rem

theorem bestNextP_snd (scores : Scores) (current : Nat) (rem : List Nat) (n : Nat)
    (h : (bestNextP scores current rem).1 = some n) :
    (bestNextP scores current rem).2 = pyGetScore scores current n := by
  rcases (foldBest_spec scores current rem (none, -1)).1 with h' | ⟨m, _, h'⟩
  · rw [bestNextP] at h
    rw [h'] at h
    exact absurd h (by simp)
  · rw [bestNextP] at h ⊢
    rw [h'] at h ⊢
    simp only [Option.some.injEq] at h
    rw [h]

theorem bestNextP_max (scores : Scores) (current : Nat) (rem : List Nat) (n : Nat)
    (h : (bestNextP scores current rem).1 = some n) :
    ∀ m ∈ rem, pyGetScore scores current m ≤ pyGetScore scores current n := by
  intro m hm
  have := (foldBest_spec scores current rem (none, -1)).2 m hm
  rw [show (List.foldl (stepBest scores current) (none, -1) rem) =
    bestNextP scores current rem from rfl, bestNextP_snd scores current rem n h] at this
  exact this

theorem greedyLoopAux_steps (scores : Scores)
    (hs : ∀ p v, scores p = some v → (-1 : ℚ) < v) :
    ∀ (fuel current : Nat) (rem : List Nat), rem.length ≤ fuel →
      GreedySteps scores current rem (greedyLoopAux scores fuel current rem) := by
  intro fuel
  induction fuel with
  | zero =>
    intro c rem h
    rw [Nat.le_zero, List.length_eq_zero] at h
    subst h
    exact GreedySteps.nil c
  | succ n ih =>
    intro c rem h
    unfold greedyLoopAux
    split
    · next he =>
      rw [List.isEmpty_iff] at he
      subst he
      exact GreedySteps.nil c
    · next he =>
      rw [List.isEmpty_iff] at he
      split
      · next nxt hb =>
        have hmem := bestNextP_fst_mem scores c rem nxt hb
        have hlen : (rem.erase nxt).length ≤ n := by
          rw [List.length_erase_of_mem hmem]
          have : 1 ≤ rem.length := List.length_pos.2 he
          omega
        exact GreedySteps.cons c nxt rem _ hmem (bestNextP_max scores c rem nxt hb)
          (ih nxt (rem.erase nxt) hlen)
      · next hb => exact absurd hb (bestNextP_ne_none scores c rem he hs)

theorem foldBest_stays_all_none (scores : Scores) (current : Nat)
    (hnone : ∀ p, scores p = none) :
    ∀ (xs : List Nat) (x : Nat), xs.foldl (stepBest scores current) (some x, 0) = (some x, 0) := by
  intro xs
  induction xs with
  | nil => intro x; rfl
  | cons y ys ih =>
    intro x
    rw [List.foldl_cons]
    have hstep : stepBest scores current (some x, 0) y = (some x, 0) := by
      unfold stepBest pyGetScore
      rw [hnone]
      norm_num
    rw [hstep]
    exact ih x

theorem greedyLoopAux_all_none (scores : Scores) (hnone : ∀ p, scores p = none) :
    ∀ (fuel current : Nat) (rem : List Nat), rem.length ≤ fuel →
      greedyLoopAux scores fuel current rem = rem := by
  intro fuel
  induction fuel with
  | zero =>
    intro c rem h
    rw [Nat.le_zero, List.length_eq_zero] at h
    subst h
    rfl
  | succ n ih =>
    intro c rem h
    cases rem with
    | nil => rfl
    | cons x xs =>
      have hbest : bestNextP scores c (x :: xs) = (some x, 0) := by
        rw [bestNextP, List.foldl_cons]
        have hstep : stepBest scores c (none, -1) x = (some x, 0) := by
          unfold stepBest pyGetScore
          rw [hnone]
          norm_num
        rw [hstep]
        exact foldBest_stays_all_none scores c hnone xs x
      unfold greedyLoopAux
      rw [if_neg (by simp)]
      rw [hbest]
      simp only [List.erase_cons_head]
      have hlen : xs.length ≤ n := by
        simp only [List.length_cons] at h
        omega
      rw [ih x xs hlen]

theorem foldMax_spec (scores : Scores) (n : Nat) :
    ∀ (l : List Nat) (init : Nat × ℚ), init.2 = outgoingSum scores n init.1 →
      (l.foldl (fun best i =>
          if outgoingSum scores n i > best.2 then (i, outgoingSum scores n i) else best)
        init).2 =
        outgoingSum scores n (l.foldl (fun best i =>
          if outgoingSum scores n i > best.2 then (i, outgoingSum scores n i) else best)
        init).1 ∧
      ((l.foldl (fun best i =>
          if outgoingSum scores n i > best.2 then (i, outgoingSum scores n i) else best)
        init) = init ∨
        (l.foldl (fun best i =>
          if outgoingSum scores n i > best.2 then (i, outgoingSum scores n i) else best)
        init).1 ∈ l) ∧
      init.2 ≤ (l.foldl (fun best i =>
          if outgoingSum scores n i > best.2 then (i, outgoingSum scores n i) else best)
        init).2 ∧
      (∀ i ∈ l, outgoingSum scores n i ≤
        (l.foldl (fun best i =>
          if outgoingSum scores n i > best.2 then (i, outgoingSum scores n i) else best)
        init).2) := by
  intro l
  induction l with
  | nil =>
    intro init hinit
    simp [hinit]
  | cons x xs ih =>
    intro init hinit
    have hstep : ((if outgoingSum scores n x > init.2 then (x, outgoingSum scores n x)
        else init) : Nat × ℚ).2 =
        outgoingSum scores n ((if outgoingSum scores n x > init.2
          then (x, outgoingSum scores n x) else init) : Nat × ℚ).1 := by
      split
      · rfl
      · exact hinit
    have hrec := ih _ hstep
    rw [List.foldl_cons]
    refine ⟨hrec.1, ?_, ?_, ?_⟩
    · rcases hrec.2.1 with h | h
      · rw [h]
        split
        · exact Or.inr (List.mem_cons_self x xs)
        · exact Or.inl rfl
      · exact Or.inr (List.mem_cons_of_mem x h)
    · refine le_trans ?_ hrec.2.2.1
      split
      · next h => exact le_of_lt h
      · exact le_refl _
    · intro i hi
      rcases List.mem_cons.1 hi with rfl | hi'
      · refine le_trans ?_ hrec.2.2.1
        split
        · exact le_refl _
        · next h => exact le_of_not_lt h
      · exact hrec.2.2.2 i hi'

theorem greedyStart_spec (scores : Scores) (n : Nat) (hn : 1 ≤ n) :
    greedyStart scores n < n ∧
    ∀ i < n, outgoingSum scores n i ≤ outgoingSum scores n (greedyStart scores n) := by
  have h := foldMax_spec scores n (List.range' 1 (n - 1)) (0, outgoingSum scores n 0) rfl
  constructor
  · unfold greedyStart
    rcases h.2.1 with hr | hr
    · rw [hr]
      exact hn
    · have := List.mem_range'_1.1 hr
      omega
  · intro i hi
    have hsnd : outgoingSum scores n (greedyStart scores n) =
        ((List.range' 1 (n - 1)).foldl (fun best i =>
          if outgoingSum scores n i > best.2 then (i, outgoingSum scores n i) else best)
          (0, outgoingSum scores n 0)).2 := by
      unfold greedyStart
      exact h.1.symm
    rw [hsnd]
    rcases Nat.eq_zero_or_pos i with rfl | hipos
    · exact h.2.2.1
    · exact h.2.2.2 i (List.mem_range'_1.2 ⟨hipos, by omega⟩)

theorem pathIndices_perm (scores : Scores) (n : Nat) (hn : 1 ≤ n) :
    (pathIndices scores n).Perm (List.range n) := by
  unfold pathIndices
  dsimp only
  have hs := (greedyStart_spec scores n hn).1
  have hloop := greedyLoopAux_perm scores
    ((List.range n).filter (fun i => i != greedyStart scores n)).length
    (greedyStart scores n)
    ((List.range n).filter (fun i => i != greedyStart scores n)) (le_refl _)
  refine ((hloop).cons _).trans ?_
  rw [← List.Nodup.erase_eq_filter (List.nodup_range n) (greedyStart scores n)]
  exact (List.perm_cons_erase (List.mem_range.2 hs)).symm

theorem createPathFromTransitions_spec (pages : List Page) (scores : Scores)
    (hne : pages ≠ []) :
    createPathFromTransitions pages scores =
      (pathIndices scores pages.length).map (fun i => withOrigIdx (pages.getD i default) i) := by
  unfold createPathFromTransitions
  rw [if_neg (by simp [List.isEmpty_iff, hne])]

theorem dedupFilter_fold_spec (n : Nat) :
    ∀ (lo : List Int) (acc : List Nat), acc.Nodup → (∀ x ∈ acc, x < n) →
      (lo.foldl (dedupStep n) acc).Nodup ∧ ∀ x ∈ lo.foldl (dedupStep n) acc, x < n := by
  intro lo
  induction lo with
  | nil => intro acc h1 h2; exact ⟨h1, h2⟩
  | cons idx rest ih =>
    intro acc h1 h2
    rw [List.foldl_cons]
    apply ih
    · unfold dedupStep
      split
      · next hr =>
        split
        · exact h1
        · next hni =>
          rw [List.nodup_append]
          refine ⟨h1, List.nodup_singleton _, ?_⟩
          intro a ha hb
          rw [List.mem_singleton] at hb
          subst hb
          have hni' : idx.toNat ∉ acc := by simpa using hni
          exact hni' ha
      · exact h1
    · intro x hx
      unfold dedupStep at hx
      split at hx
      · next hr =>
        split at hx
        · exact h2 x hx
        · rcases List.mem_append.1 hx with h | h
          · exact h2 x h
          · rw [List.mem_singleton] at h
            subst h
            omega
      · exact h2 x hx

theorem dedupFilter_spec (n : Nat) (lo : List Int) :
    (dedupFilter n lo).Nodup ∧ ∀ x ∈ dedupFilter n lo, x < n :=
  dedupFilter_fold_spec n lo [] List.nodup_nil (by simp)

theorem combine_tail_spec (pages : List Page) (scores : Scores) (hne : pages ≠ [])
    (hn : 1 ≤ pages.length) (lo : List Int) :
    ∃ idxs : List Nat, idxs.Perm (List.range pages.length) ∧
      (if (dedupFilter pages.length lo).length ≠ pages.length
        then createPathFromTransitions pages scores
        else (dedupFilter pages.length lo).map
          (fun i => withOrigIdx (pages.getD i default) i)) =
        idxs.map (fun i => withOrigIdx (pages.getD i default) i) := by
  split
  · exact ⟨pathIndices scores pages.length, pathIndices_perm scores pages.length hn,
      createPathFromTransitions_spec pages scores hne⟩
  · next hlen =>
    rw [not_not] at hlen
    refine ⟨dedupFilter pages.length lo, ?_, rfl⟩
    have hspec := dedupFilter_spec pages.length lo
    refine List.Subperm.perm_of_length_le
      (List.subperm_of_subset hspec.1 (fun x hx => List.mem_range.2 (hspec.2 x hx))) ?_
    rw [List.length_range, hlen]

/-- Master lemma for `_combine_ordering_results`: whatever the candidate order,
the result is the annotated image of a permutation of `0..N-1`. -/
theorem combine_eq_map_perm (pages : List Page) (llmOrder : OrderResult) (scores : Scores)
    (h2 : 2 ≤ pages.length) :
    ∃ idxs : List Nat, idxs.Perm (List.range pages.length) ∧
      combineOrderingResults pages llmOrder scores =
        idxs.map (fun i => withOrigIdx (pages.getD i default) i) := by
  have hne : pages ≠ [] := by
    intro h
    rw [h] at h2
    simp at h2
  have hn : 1 ≤ pages.length := le_trans (by norm_num) h2
  exact combine_tail_spec pages scores hne hn _

/-- C1: for every page list with N ≥ 2 and every candidate order (malformed,
duplicated, out-of-range or incomplete), the Reconciler
(`_combine_ordering_results`, falling back to
`_create_path_from_transitions`) returns pages whose `original_index`
annotations are exactly a permutation of 0..N-1. -/
theorem claim_C1_reconciler_permutation (pages : List Page) (llmOrder : OrderResult)
    (scores : Scores) (h2 : 2 ≤ pages.length) :
    ((combineOrderingResults pages llmOrder scores).map Page.original_index).Perm
      ((List.range pages.length).map some) := by
  obtain ⟨idxs, hperm, heq⟩ := combine_eq_map_perm pages llmOrder scores h2
  rw [heq, List.map_map]
  exact hperm.map _

/-- Witness for C1: two pages and the malformed candidate order [5, 0, 0]
(out of range and duplicated). -/
theorem claim_C1_witness :
    ((combineOrderingResults c4Pages { order := [5, 0, 0], reasoning := "r" }
        (fun _ => none)).map Page.original_index).Perm
      ((List.range c4Pages.length).map some) :=
  claim_C1_reconciler_permutation c4Pages { order := [5, 0, 0], reasoning := "r" }
    (fun _ => none) (by decide)

/-- C6: for every non-empty page list and every transition matrix the greedy
fallback produces exactly N pages annotated with each index exactly once; its
start index maximises the total outgoing transition score; every looping step
appends an unvisited index of maximal transition score from the current one
(`GreedySteps`, guaranteed whenever every stored score exceeds -1, which holds
for all scores the pipeline stores — see C10); and on the all-missing
("all-zero") matrix the loop appends the remaining indices in ascending order
(the remaining list is kept ascending). -/
theorem claim_C6_greedy_path (pages : List Page) (scores : Scores)
    (hne : pages ≠ [])
    (hs : ∀ p v, scores p = some v → (-1 : ℚ) < v) :
    (createPathFromTransitions pages scores).length = pages.length ∧
    (createPathFromTransitions pages scores).map Page.original_index =
      (pathIndices scores pages.length).map some ∧
    (pathIndices scores pages.length).Perm (List.range pages.length) ∧
    (∀ i < pages.length, outgoingSum scores pages.length i ≤
      outgoingSum scores pages.length (greedyStart scores pages.length)) ∧
    GreedySteps scores (greedyStart scores pages.length)
      ((List.range pages.length).filter (fun i => i != greedyStart scores pages.length))
      (greedyLoop scores (greedyStart scores pages.length)
        ((List.range pages.length).filter (fun i => i != greedyStart scores pages.length))) ∧
    ((∀ p, scores p = none) →
      greedyLoop scores (greedyStart scores pages.length)
        ((List.range pages.length).filter (fun i => i != greedyStart scores pages.length)) =
        (List.range pages.length).filter (fun i => i != greedyStart scores pages.length)) := by
  have hn : 1 ≤ pages.length := List.length_pos.2 hne
  have hperm := pathIndices_perm scores pages.length hn
  have hspec := createPathFromTransitions_spec pages scores hne
  refine ⟨?_, ?_, hperm, (greedyStart_spec scores pages.length hn).2, ?_, ?_⟩
  · rw [hspec, List.length_map, hperm.length_eq, List.length_range]
  · rw [hspec, List.map_map]
    rfl
  · exact greedyLoopAux_steps scores hs _ _ _ (le_refl _)
  · intro hnone
    exact greedyLoopAux_all_none scores hnone _ _ _ (le_refl _)

/-- Witness for C6: two pages with the all-missing transition matrix. -/
theorem claim_C6_witness :
    (createPathFromTransitions c4Pages (fun _ => none)).length = c4Pages.length :=
  (claim_C6_greedy_path c4Pages (fun _ => none) (by decide)
    (by intro p v h; simp at h)).1

/-! ### `_llm_determine_order`: validation and fallback -/

theorem identityOrder_nodup (n : Nat) : (identityOrder n).Nodup :=
  (List.nodup_range n).map (fun _ _ h => Int.ofNat.inj h)

theorem mem_identityOrder (n : Nat) (x : Int) :
    x ∈ identityOrder n ↔ 0 ≤ x ∧ x < (n : Int) := by
  unfold identityOrder
  simp only [List.mem_map, List.mem_range, Int.ofNat_eq_natCast]
  constructor
  · rintro ⟨i, hi, rfl⟩
    omega
  · intro ⟨h0, hn⟩
    exact ⟨x.toNat, by omega, by omega⟩

theorem isValidPerm_iff (n : Nat) (o : List Int) :
    isValidPerm n o = true ↔ o.Perm (identityOrder n) := by
  unfold isValidPerm
  simp only [Bool.and_eq_true, beq_iff_eq, List.all_eq_true, decide_eq_true_eq,
    List.contains, List.elem_iff, List.mem_range, Int.ofNat_eq_natCast]
  constructor
  · rintro ⟨⟨hlen, hsub⟩, hbd⟩
    have hsub' : identityOrder n ⊆ o := by
      intro x hx
      rw [mem_identityOrder] at hx
      have := hsub x.toNat (by omega)
      rwa [show ((x.toNat : Nat) : Int) = x by omega] at this
    refine ((List.subperm_of_subset (identityOrder_nodup n) hsub').perm_of_length_le ?_).symm
    rw [hlen]
    unfold identityOrder
    rw [List.length_map, List.length_range]
  · intro h
    refine ⟨⟨?_, ?_⟩, ?_⟩
    · rw [h.length_eq]
      unfold identityOrder
      rw [List.length_map, List.length_range]
    · intro i hi
      exact h.symm.subset ((mem_identityOrder n (i : Int)).2 (by omega))
    · intro x hx
      exact (mem_identityOrder n x).1 (h.subset hx)

/-- C5: on oracle transport failure the Requester returns the identity order
with a reasoning string noting the failure; a parsed order is adopted exactly
when it passes the validation (which is equivalent to being a permutation of
0..N-1); any other parsed outcome falls back to the embedding-based heuristic
order tagged "not parseable"; and no oracle outcome ever makes
`determine_page_order` fail. -/
theorem claim_C5_oracle_degradation (pages : List Page) (scores : Scores)
    (sim : Nat → Nat → ℚ) (po : List Int) (rs : String) (hne : po ≠ []) :
    (llmDetermineOrder pages scores OracleOutcome.queryFailed =
      { order := identityOrder pages.length,
        reasoning := "LLM query failed, using original order" }) ∧
    (isValidPerm pages.length po = true ↔ po.Perm (identityOrder pages.length)) ∧
    (isValidPerm pages.length po = true →
      llmDetermineOrder pages scores (OracleOutcome.response (some po) rs) =
        { order := po, reasoning := rs }) ∧
    (isValidPerm pages.length po = false →
      llmDetermineOrder pages scores (OracleOutcome.response (some po) rs) =
        embFallback pages scores) ∧
    (llmDetermineOrder pages scores (OracleOutcome.response none rs) =
      embFallback pages scores) ∧
    (∀ oracle, (determinePageOrder pages sim oracle).success = true) := by
  refine ⟨rfl, isValidPerm_iff pages.length po, ?_, ?_, rfl, ?_⟩
  · intro hv
    unfold llmDetermineOrder
    dsimp only
    rw [if_neg (by simp [hne]), if_pos hv]
  · intro hv
    unfold llmDetermineOrder
    dsimp only
    rw [if_neg (by simp [hne]), if_neg (by simp [hv])]
  · intro oracle
    unfold determinePageOrder
    dsimp only
    split <;> rfl

/-- Witness for C5: the non-empty parsed order [1, 0] on two pages. -/
theorem claim_C5_witness :
    llmDetermineOrder c4Pages (fun _ => none) (OracleOutcome.response (some [1, 0]) "r") =
      { order := [1, 0], reasoning := "r" } :=
  (claim_C5_oracle_degradation c4Pages (fun _ => none) (fun _ _ => 0) [1, 0] "r"
    (by decide)).2.2.1 (by decide)

/-! ### `_calculate_confidence_scores` -/

theorem getD_map_range {α : Type} (n : Nat) (f : Nat → α) (i : Nat) (d : α) (hi : i < n) :
    ((List.range n).map f).getD i d = f i := by
  rw [List.getD_eq_getElem?_getD, List.getElem?_map, List.getElem?_range hi]
  rfl

/-- C8 (amended): empty pages get confidence exactly 0.5; a non-empty first
position gets exactly 0.7; a non-empty position whose predecessor is
non-empty gets `min(1, transition_score.get((prev_oi, curr_oi), 0.5) + 0.2)`;
a non-empty position whose *predecessor* is empty gets exactly 0.6.  (The
claim as frozen says every position adjacent to an empty page *on either
side* gets 0.6; the source only inspects the predecessor, and an empty first
position gets 0.5, not the claimed first-position 0.7 — see the
counterexample.) -/
theorem claim_C8_confidence_amended (ordered : List Page) (scores : Scores)
    (llm : OrderResult) (i : Nat) (hi : i < ordered.length) :
    (calculateConfidenceScores ordered scores llm).length = ordered.length ∧
    ((ordered.getD i default).is_empty = true →
      (calculateConfidenceScores ordered scores llm).getD i 0 = 1/2) ∧
    (i = 0 → (ordered.getD i default).is_empty = false →
      (calculateConfidenceScores ordered scores llm).getD i 0 = 7/10) ∧
    (0 < i → (ordered.getD i default).is_empty = false →
      (ordered.getD (i-1) default).is_empty = false →
      (calculateConfidenceScores ordered scores llm).getD i 0 =
        min 1 ((scores ((ordered.getD (i-1) default).original_index.getD (i-1),
          (ordered.getD i default).original_index.getD i)).getD (1/2) + 2/10)) ∧
    (0 < i → (ordered.getD i default).is_empty = false →
      (ordered.getD (i-1) default).is_empty = true →
      (calculateConfidenceScores ordered scores llm).getD i 0 = 6/10) := by
  unfold calculateConfidenceScores
  refine ⟨by rw [List.length_map, List.length_range], ?_, ?_, ?_, ?_⟩
  · intro he
    rw [getD_map_range ordered.length _ i 0 hi]
    dsimp only
    rw [if_pos he]
  · intro h0 he
    subst h0
    rw [getD_map_range ordered.length _ 0 0 hi]
    dsimp only
    rw [if_neg (by rw [he]; exact Bool.false_ne_true), if_pos (by rfl)]
  · intro hpos he hp
    rw [getD_map_range ordered.length _ i 0 hi]
    dsimp only
    rw [if_neg (by rw [he]; exact Bool.false_ne_true),
      if_neg (by simp only [beq_iff_eq]; omega),
      if_pos (by rw [hp, he]; rfl)]
  · intro hpos he hp
    rw [getD_map_range ordered.length _ i 0 hi]
    dsimp only
    rw [if_neg (by rw [he]; exact Bool.false_ne_true),
      if_neg (by simp only [beq_iff_eq]; omega),
      if_neg (by rw [hp, he]; simp)]

/-- Witness for C8 (amended): position 1 of `c8Pages` (non-empty, non-empty
predecessor) gets `min(1, 0.3 + 0.2)`. -/
theorem claim_C8_witness :
    (calculateConfidenceScores c8Pages c8Scores { order := [], reasoning := "" }).getD 1 0 =
      min 1 ((c8Scores (((c8Pages.getD 0 default).original_index.getD 0),
        ((c8Pages.getD 1 default).original_index.getD 1))).getD (1/2) + 2/10) :=
  (claim_C8_confidence_amended c8Pages c8Scores { order := [], reasoning := "" } 1
    (by decide)).2.2.2.1 (by decide) (by decide) (by decide)

/-- C8 counterexample: in `c8Pages` the non-empty position 1 is adjacent (on
its right) to the empty position 2, yet its confidence is 0.5, not the claimed
0.6; and in `c8PagesB` the first position is an empty page and gets 0.5, not
the claimed first-position 0.7. -/
theorem claim_C8_counterexample :
    (c8Pages.getD 1 default).is_empty = false ∧
    (c8Pages.getD 2 default).is_empty = true ∧
    (calculateConfidenceScores c8Pages c8Scores { order := [], reasoning := "" }).getD 1 0 =
      1/2 ∧
    ((1 : ℚ)/2 ≠ 6/10) ∧
    (c8PagesB.getD 0 default).is_empty = true ∧
    (calculateConfidenceScores c8PagesB c8Scores { order := [], reasoning := "" }).getD 0 0 =
      1/2 ∧
    ((1 : ℚ)/2 ≠ 7/10) := by
  refine ⟨by decide, by decide, ?_, by norm_num, by decide, ?_, by norm_num⟩
  · unfold calculateConfidenceScores
    rw [getD_map_range _ _ 1 0 (by decide)]
    dsimp only
    rw [if_neg (by decide), if_neg (by decide), if_pos (by decide)]
    have hk : ((c8Pages.getD 0 default).original_index.getD 0,
        (c8Pages.getD 1 default).original_index.getD 1) = ((0 : Nat), (1 : Nat)) := by decide
    rw [hk]
    have hsc : c8Scores (0, 1) = some (3/10) := by
      unfold c8Scores
      rw [if_pos rfl]
    rw [hsc]
    rw [show ((some ((3:ℚ)/10)).getD (1/2) + 2/10 : ℚ) = 1/2 by norm_num]
    exact min_eq_right (by norm_num)
  · unfold calculateConfidenceScores
    rw [getD_map_range _ _ 0 0 (by decide)]
    dsimp only
    rw [if_pos (by decide)]

/-! ### `determine_page_order`: full coverage -/

theorem map_getD_range_self {α : Type} (l : List α) (d : α) :
    (List.range l.length).map (fun i => l.getD i d) = l := by
  apply List.ext_getElem
  · rw [List.length_map, List.length_range]
  · intro n h1 h2
    rw [List.getElem_map, List.getElem_range, List.getD_eq_getElem?_getD,
      List.getElem?_eq_getElem h2]
    rfl

theorem combine_page_numbers (pages : List Page) (llmOrder : OrderResult) (scores : Scores)
    (h2 : 2 ≤ pages.length) :
    ((combineOrderingResults pages llmOrder scores).map Page.page_number).Perm
      (pages.map Page.page_number) := by
  obtain ⟨idxs, hperm, heq⟩ := combine_eq_map_perm pages llmOrder scores h2
  rw [heq, List.map_map]
  refine (hperm.map _).trans ?_
  have h3 : (List.range pages.length).map
      (Page.page_number ∘ fun i => withOrigIdx (pages.getD i default) i) =
      ((List.range pages.length).map (fun i => pages.getD i default)).map Page.page_number := by
    rw [List.map_map]
    rfl
  rw [h3, map_getD_range_self pages default]

theorem dictPosAux_isSome (n : Nat) :
    ∀ (l : List Page) (i : Nat), (∃ p ∈ l, p.page_number = n) → dictPosAux n i l ≠ none := by
  intro l
  induction l with
  | nil =>
    rintro i ⟨p, hp, _⟩
    cases hp
  | cons q rest ih =>
    rintro i ⟨p, hp, hn⟩
    unfold dictPosAux
    cases hrec : dictPosAux n (i + 1) rest with
    | some j => simp
    | none =>
      rcases List.mem_cons.1 hp with rfl | hmem
      · rw [if_pos (by simp [hn])]
        simp
      · exact absurd hrec (ih (i + 1) ⟨p, hmem, hn⟩)

theorem dictPos_isSome (orig : List Page) (e : Page) (he : e ∈ orig) :
    dictPos orig e.page_number ≠ none :=
  dictPosAux_isSome e.page_number orig 0 ⟨e, he, rfl⟩

theorem pyInsert_perm {α : Type} (l : List α) (i : Nat) (x : α) :
    (pyInsert l i x).Perm (x :: l) := by
  unfold pyInsert
  refine List.perm_middle.trans ?_
  rw [List.take_append_drop]

theorem reinsertStep_perm (orig ordered result : List Page) (e : Page)
    (h : dictPos orig e.page_number ≠ none) :
    (reinsertStep orig ordered result e).Perm (e :: result) := by
  unfold reinsertStep
  cases hd : dictPos orig e.page_number with
  | none => exact absurd hd h
  | some pe =>
    dsimp only
    exact pyInsert_perm result _ e

theorem reinsert_fold_perm (orig ordered : List Page) :
    ∀ (empty result : List Page),
      (∀ e ∈ empty, dictPos orig e.page_number ≠ none) →
      (empty.foldl (reinsertStep orig ordered) result).Perm (result ++ empty) := by
  intro empty
  induction empty with
  | nil =>
    intro result _
    simp
  | cons e rest ih =>
    intro result hmem
    rw [List.foldl_cons]
    refine (ih _ (fun x hx => hmem x (List.mem_cons_of_mem e hx))).trans ?_
    refine ((reinsertStep_perm orig ordered result e
      (hmem e (List.mem_cons_self e rest))).append_right rest).trans ?_
    exact List.perm_middle.symm

theorem reinsertEmptyPages_perm (ordered empty orig : List Page)
    (hmem : ∀ e ∈ empty, dictPos orig e.page_number ≠ none) :
    (reinsertEmptyPages ordered empty orig).Perm (ordered ++ empty) := by
  unfold reinsertEmptyPages
  split
  · next he =>
    rw [List.isEmpty_iff] at he
    subst he
    simp
  · exact reinsert_fold_perm orig ordered empty ordered hmem

theorem setMissingIndices_map_pn (l : List Page) :
    (setMissingIndices l).map Page.page_number = l.map Page.page_number := by
  unfold setMissingIndices
  rw [List.map_map]
  have h : (Page.page_number ∘ fun ip : Nat × Page =>
      if ip.2.original_index = none then { ip.2 with original_index := some ip.1 }
      else ip.2) = (Page.page_number ∘ Prod.snd) := by
    funext ip
    dsimp [Function.comp]
    split <;> rfl
  rw [h, ← List.map_map, List.enum_map_snd]

theorem setMissingIndices_length (l : List Page) :
    (setMissingIndices l).length = l.length := by
  unfold setMissingIndices
  rw [List.length_map, List.enum_length]

/-- C2: `determine_page_order` always returns `ordered_pages` and `page_order`
of exactly the input length, with `page_order` a permutation of the input page
numbers — on the success path (after empty-page reinsertion) for every oracle
outcome, and on the exception path (`errorFallbackResult`). -/
theorem claim_C2_full_coverage (pages : List Page) (sim : Nat → Nat → ℚ)
    (oracle : OracleOutcome) (msg : String) :
    (determinePageOrder pages sim oracle).success = true ∧
    (determinePageOrder pages sim oracle).ordered_pages.length = pages.length ∧
    (determinePageOrder pages sim oracle).page_order.length = pages.length ∧
    ((determinePageOrder pages sim oracle).page_order).Perm (pages.map Page.page_number) ∧
    (errorFallbackResult pages msg).success = false ∧
    (errorFallbackResult pages msg).ordered_pages.length = pages.length ∧
    (errorFallbackResult pages msg).page_order.length = pages.length ∧
    ((errorFallbackResult pages msg).page_order).Perm (pages.map Page.page_number) := by
  have hmain : (determinePageOrder pages sim oracle).success = true ∧
      (determinePageOrder pages sim oracle).ordered_pages.length = pages.length ∧
      (determinePageOrder pages sim oracle).page_order =
        (determinePageOrder pages sim oracle).ordered_pages.map Page.page_number ∧
      ((determinePageOrder pages sim oracle).ordered_pages.map Page.page_number).Perm
        (pages.map Page.page_number) := by
    unfold determinePageOrder
    dsimp only
    split
    · exact ⟨rfl, rfl, rfl, List.Perm.refl _⟩
    · next hlt =>
      push_neg at hlt
      refine ⟨rfl, ?_, rfl, ?_⟩
      all_goals {
        have hMem : ∀ e ∈ pages.filter (fun p => p.is_empty),
            dictPos pages e.page_number ≠ none := fun e hee =>
          dictPos_isSome pages e (List.mem_of_mem_filter hee)
        have hRperm := reinsertEmptyPages_perm
          (combineOrderingResults (pages.filter (fun p => !p.is_empty))
            (llmDetermineOrder (pages.filter (fun p => !p.is_empty))
              (calculateTransitionScores (pages.filter (fun p => !p.is_empty)) sim) oracle)
            (calculateTransitionScores (pages.filter (fun p => !p.is_empty)) sim))
          (pages.filter (fun p => p.is_empty)) pages hMem
        have hCperm := combine_page_numbers (pages.filter (fun p => !p.is_empty))
          (llmDetermineOrder (pages.filter (fun p => !p.is_empty))
            (calculateTransitionScores (pages.filter (fun p => !p.is_empty)) sim) oracle)
          (calculateTransitionScores (pages.filter (fun p => !p.is_empty)) sim) hlt
        have hsplit : ((pages.filter (fun p => p.is_empty)) ++
            (pages.filter (fun p => !p.is_empty))).Perm pages :=
          List.filter_append_perm (fun p => p.is_empty) pages
        first
        | { rw [setMissingIndices_length, hRperm.length_eq, List.length_append]
            have h1 := hCperm.length_eq
            rw [List.length_map, List.length_map] at h1
            have h2 := hsplit.length_eq
            rw [List.length_append] at h2
            omega }
        | { rw [setMissingIndices_map_pn]
            refine (hRperm.map Page.page_number).trans ?_
            rw [List.map_append]
            refine (hCperm.append_right _).trans ?_
            rw [← List.map_append]
            exact (List.perm_append_comm.trans hsplit).map Page.page_number }
      }
  refine ⟨hmain.1, hmain.2.1, ?_, ?_, rfl, rfl, ?_, List.Perm.refl _⟩
  · rw [hmain.2.2.1, List.length_map, hmain.2.1]
  · rw [hmain.2.2.1]
    exact hmain.2.2.2
  · show (pages.map Page.page_number).length = pages.length
    rw [List.length_map]

/-! ### `_reinsert_empty_pages`: placement characterisation -/

theorem find?_congr_pt {α : Type} (p q : α → Bool) :
    ∀ (l : List α), (∀ x ∈ l, p x = q x) → l.find? p = l.find? q := by
  intro l
  induction l with
  | nil => intro _; rfl
  | cons a as ih =>
    intro h
    cases hq : q a with
    | false =>
      have hp : p a = false := (h a (List.mem_cons_self a as)).trans hq
      rw [List.find?_cons, List.find?_cons, hp, hq]
      exact ih (fun x hx => h x (List.mem_cons_of_mem a hx))
    | true =>
      have hp : p a = true := (h a (List.mem_cons_self a as)).trans hq
      rw [List.find?_cons, List.find?_cons, hp, hq]

theorem pyInsert_at_append {α : Type} (X Y : List α) (e : α) :
    pyInsert (X ++ Y) X.length e = X ++ e :: Y := by
  unfold pyInsert
  rw [List.take_left, List.drop_left]

theorem pyInsert_at_end {α : Type} (l : List α) (x : α) :
    pyInsert l l.length x = l ++ [x] := by
  unfold pyInsert
  rw [List.take_length, List.drop_length]

theorem findIdx?_first {α : Type} (p : α → Bool) (X Y : List α) (P : α)
    (hX : ∀ x ∈ X, p x = false) (hP : p P = true) :
    List.findIdx? p (X ++ P :: Y) = some X.length := by
  rw [List.findIdx?_append, List.findIdx?_eq_none_iff.2 hX,
    show List.findIdx? p (P :: Y) = some 0 from by rw [List.findIdx?_cons, if_pos hP]]
  simp

theorem flatten_map_singleton {α : Type} : ∀ l : List α, (l.map (fun x => [x])).flatten = l := by
  intro l
  induction l with
  | nil => rfl
  | cons x xs ih =>
    rw [List.map_cons, List.flatten_cons, ih]
    rfl

theorem dictPosAux_some (n : Nat) :
    ∀ (l : List Page) (i j : Nat), dictPosAux n i l = some j →
      i ≤ j ∧ j - i < l.length ∧ (l.getD (j - i) default).page_number = n := by
  intro l
  induction l with
  | nil => intro i j h; cases h
  | cons q rest ih =>
    intro i j h
    unfold dictPosAux at h
    cases hrec : dictPosAux n (i + 1) rest with
    | some j2 =>
      rw [hrec] at h
      obtain rfl : j = j2 := by
        have : j2 = j := by simpa using h
        omega
      obtain ⟨h1, h2, h3⟩ := ih (i + 1) j hrec
      refine ⟨by omega, by simp only [List.length_cons]; omega, ?_⟩
      rw [show j - i = (j - (i + 1)) + 1 by omega]
      simpa using h3
    | none =>
      rw [hrec] at h
      cases hq : (q.page_number == n) with
      | false =>
        rw [hq] at h
        simp at h
      | true =>
        rw [hq] at h
        simp only [if_true] at h
        obtain rfl : j = i := by
          have : i = j := by simpa using h
          omega
        refine ⟨le_refl j, by simp, ?_⟩
        rw [Nat.sub_self]
        simpa using hq

theorem dictPos_some (orig : List Page) (n j : Nat) (h : dictPos orig n = some j) :
    j < orig.length ∧ (orig.getD j default).page_number = n := by
  obtain ⟨_, h2, h3⟩ := dictPosAux_some n orig 0 j h
  rw [Nat.sub_zero] at h2 h3
  exact ⟨h2, h3⟩

theorem dictPos_isSome_num (orig : List Page) (n : Nat)
    (h : n ∈ orig.map Page.page_number) : dictPos orig n ≠ none := by
  obtain ⟨q, hq, rfl⟩ := List.mem_map.1 h
  exact dictPos_isSome orig q hq

theorem dictPos_lt_iff (orig : List Page)
    (hch : List.Chain' (· < ·) (orig.map Page.page_number))
    {m₁ m₂ i₁ i₂ : Nat}
    (h₁ : dictPos orig m₁ = some i₁) (h₂ : dictPos orig m₂ = some i₂) :
    (i₁ < i₂ ↔ m₁ < m₂) := by
  have hp : List.Pairwise (· < ·) (orig.map Page.page_number) :=
    List.chain'_iff_pairwise.1 hch
  obtain ⟨hl₁, hg₁⟩ := dictPos_some orig m₁ i₁ h₁
  obtain ⟨hl₂, hg₂⟩ := dictPos_some orig m₂ i₂ h₂
  have key : ∀ a b : Nat, ∀ (ha : a < orig.length) (hb : b < orig.length), a < b →
      (orig.getD a default).page_number < (orig.getD b default).page_number := by
    intro a b ha hb hab
    have hmap := List.pairwise_iff_get.1 hp
      ⟨a, by rw [List.length_map]; exact ha⟩
      ⟨b, by rw [List.length_map]; exact hb⟩
      (Fin.mk_lt_mk.2 hab)
    rw [List.get_eq_getElem, List.get_eq_getElem, List.getElem_map, List.getElem_map] at hmap
    rw [List.getD_eq_getElem orig default ha, List.getD_eq_getElem orig default hb]
    exact hmap
  constructor
  · intro h
    have := key i₁ i₂ hl₁ hl₂ h
    rwa [hg₁, hg₂] at this
  · intro h
    rcases Nat.lt_trichotomy i₁ i₂ with h' | h' | h'
    · exact h'
    · subst h'
      have : m₁ = m₂ := hg₁.symm.trans hg₂
      omega
    · have := key i₂ i₁ hl₂ hl₁ h'
      rw [hg₁, hg₂] at this
      omega

theorem codeCond_eq (orig : List Page)
    (hch : List.Chain' (· < ·) (orig.map Page.page_number))
    (e P : Page) (pe : Nat)
    (he : dictPos orig e.page_number = some pe)
    (hP : P.page_number ∈ orig.map Page.page_number)
    (hne : e.page_number ≠ P.page_number) :
    decide ((dictPos orig P.page_number).getD 9999 > pe) =
      decide (e.page_number < P.page_number) := by
  cases hp : dictPos orig P.page_number with
  | none => exact absurd hp (dictPos_isSome_num orig P.page_number hP)
  | some pP =>
    rw [Option.getD_some, decide_eq_decide]
    exact dictPos_lt_iff orig hch he hp

theorem flatten_blocks_split {α : Type} (f : α → List α) (O₁ O₂ : List α) (P : α) :
    ((O₁ ++ P :: O₂).map (fun Q => f Q ++ [Q])).flatten =
      (O₁.map (fun Q => f Q ++ [Q])).flatten ++
        ((f P ++ [P]) ++ (O₂.map (fun Q => f Q ++ [Q])).flatten) := by
  rw [List.map_append, List.map_cons, List.flatten_append, List.flatten_cons]

theorem reinsertStep_interleave (ordered orig empty : List Page)
    (hch : List.Chain' (· < ·) (orig.map Page.page_number))
    (hOrdN : ∀ P ∈ ordered, P.page_number ∈ orig.map Page.page_number)
    (hOrdNodup : (ordered.map Page.page_number).Nodup)
    (hEmpN : ∀ x ∈ empty, x.page_number ∈ orig.map Page.page_number)
    (hDisj : ∀ x ∈ empty, ∀ P ∈ ordered, x.page_number ≠ P.page_number)
    (es : List Page) (hes : ∀ x ∈ es, x ∈ empty)
    (e : Page) (he : e ∈ empty) :
    reinsertStep orig ordered (interleave ordered es) e = interleave ordered (es ++ [e]) := by
  cases hpe : dictPos orig e.page_number with
  | none => exact absurd hpe (dictPos_isSome_num orig e.page_number (hEmpN e he))
  | some pe =>
    unfold reinsertStep
    rw [hpe]
    dsimp only
    have hfind : ordered.find?
        (fun P => decide ((dictPos orig P.page_number).getD 9999 > pe)) = tgtOf ordered e := by
      unfold tgtOf
      exact find?_congr_pt _ _ ordered (fun P hP =>
        codeCond_eq orig hch e P pe hpe (hOrdN P hP) (hDisj e he P hP))
    rw [hfind]
    cases htgt : tgtOf ordered e with
    | none =>
      dsimp only
      rw [pyInsert_at_end]
      unfold interleave
      have hblk : ordered.map (fun P => (es ++ [e]).filter
          (fun x => (tgtOf ordered x).map Page.page_number == some P.page_number) ++ [P]) =
          ordered.map (fun P => es.filter
          (fun x => (tgtOf ordered x).map Page.page_number == some P.page_number) ++ [P]) := by
        apply List.map_congr_left
        intro P _
        rw [List.filter_append,
          show [e].filter (fun x =>
            (tgtOf ordered x).map Page.page_number == some P.page_number) = [] from by
              simp [htgt],
          List.append_nil]
      have hbend : (es ++ [e]).filter (fun x => (tgtOf ordered x).isNone) =
          es.filter (fun x => (tgtOf ordered x).isNone) ++ [e] := by
        rw [List.filter_append]
        congr 1
        simp [htgt]
      rw [hblk, hbend, ← List.append_assoc]
    | some P =>
      dsimp only
      have htgt' : ordered.find? (fun Q => decide (e.page_number < Q.page_number)) = some P := by
        rw [show ordered.find? (fun Q => decide (e.page_number < Q.page_number)) =
          tgtOf ordered e from rfl, htgt]
      obtain ⟨hPcond, O₁, O₂, hsplit, hO₁⟩ := List.find?_eq_some.1 htgt'
      have hPmem : P ∈ ordered := by
        rw [hsplit]
        exact List.mem_append.2 (Or.inr (List.mem_cons_self P O₂))
      -- distinctness of page numbers inside `ordered`
      have hnd : ((O₁.map Page.page_number) ++
          P.page_number :: (O₂.map Page.page_number)).Nodup := by
        have h0 := hOrdNodup
        rw [hsplit, List.map_append, List.map_cons] at h0
        exact h0
      obtain ⟨hnd₁, hnd₂, hdisj₁₂⟩ := List.nodup_append.1 hnd
      have hPnotO₁ : ∀ Q ∈ O₁, Q.page_number ≠ P.page_number := by
        intro Q hQ hcontra
        exact hdisj₁₂ (List.mem_map_of_mem Page.page_number hQ)
          (by rw [hcontra]; exact List.mem_cons_self _ _)
      have hPnotO₂ : ∀ Q ∈ O₂, P.page_number ≠ Q.page_number := by
        intro Q hQ hcontra
        have h2 := List.nodup_cons.1 hnd₂
        exact h2.1 (hcontra ▸ List.mem_map_of_mem Page.page_number hQ)
      have hEsNe : ∀ x ∈ es, (x.page_number == P.page_number) = false := by
        intro x hx
        rw [beq_eq_false_iff_ne]
        exact hDisj x (hes x hx) P hPmem
      unfold interleave
      set g := tgtOf ordered with hg
      have htgtg : g e = some P := by rw [hg]; exact htgt
      -- split the block list over the decomposition of `ordered`
      have hmap₁ : ordered.map (fun Q => es.filter
          (fun x => (g x).map Page.page_number == some Q.page_number) ++ [Q]) =
          (O₁ ++ P :: O₂).map (fun Q => es.filter
          (fun x => (g x).map Page.page_number == some Q.page_number) ++ [Q]) := by
        rw [hsplit]
      have hmap₂ : ordered.map (fun Q => (es ++ [e]).filter
          (fun x => (g x).map Page.page_number == some Q.page_number) ++ [Q]) =
          (O₁ ++ P :: O₂).map (fun Q => (es ++ [e]).filter
          (fun x => (g x).map Page.page_number == some Q.page_number) ++ [Q]) := by
        rw [hsplit]
      rw [hmap₁, hmap₂, flatten_blocks_split, flatten_blocks_split]
      have hre : ((O₁.map (fun Q => es.filter
            (fun x => (g x).map Page.page_number == some Q.page_number) ++ [Q])).flatten ++
            ((es.filter (fun x => (g x).map Page.page_number == some P.page_number) ++ [P]) ++
              (O₂.map (fun Q => es.filter
                (fun x => (g x).map Page.page_number == some Q.page_number) ++ [Q])).flatten)) ++
            es.filter (fun x => (g x).isNone) =
          ((O₁.map (fun Q => es.filter
            (fun x => (g x).map Page.page_number == some Q.page_number) ++ [Q])).flatten ++
            es.filter (fun x => (g x).map Page.page_number == some P.page_number)) ++
          P :: ((O₂.map (fun Q => es.filter
            (fun x => (g x).map Page.page_number == some Q.page_number) ++ [Q])).flatten ++
            es.filter (fun x => (g x).isNone)) := by
        simp [List.append_assoc]
      rw [hre]
      have hXfalse : ∀ x ∈ (O₁.map (fun Q => es.filter
          (fun x => (g x).map Page.page_number == some Q.page_number) ++ [Q])).flatten ++
          es.filter (fun x => (g x).map Page.page_number == some P.page_number),
          (x.page_number == P.page_number) = false := by
        intro x hx
        rcases List.mem_append.1 hx with hx₁ | hx₂
        · rcases List.mem_flatten.1 hx₁ with ⟨b, hb, hxb⟩
          rcases List.mem_map.1 hb with ⟨Q, hQ, rfl⟩
          rcases List.mem_append.1 hxb with hxf | hxq
          · exact hEsNe x (List.mem_of_mem_filter hxf)
          · rw [List.mem_singleton] at hxq
            subst hxq
            rw [beq_eq_false_iff_ne]
            exact hPnotO₁ x hQ
        · exact hEsNe x (List.mem_of_mem_filter hx₂)
      rw [findIdx?_first _ _ _ _ hXfalse (by simp)]
      dsimp only
      rw [pyInsert_at_append]
      -- reduce the `es ++ [e]` filters on the right-hand side
      have hblk₁ : O₁.map (fun Q => (es ++ [e]).filter
          (fun x => (g x).map Page.page_number == some Q.page_number) ++ [Q]) =
          O₁.map (fun Q => es.filter
          (fun x => (g x).map Page.page_number == some Q.page_number) ++ [Q]) := by
        apply List.map_congr_left
        intro Q hQ
        rw [List.filter_append,
          show [e].filter (fun x =>
            (g x).map Page.page_number == some Q.page_number) = [] from by
              simp [List.filter_eq_nil_iff, htgtg]
              exact fun h => hPnotO₁ Q hQ h.symm,
          List.append_nil]
      have hblk₂ : O₂.map (fun Q => (es ++ [e]).filter
          (fun x => (g x).map Page.page_number == some Q.page_number) ++ [Q]) =
          O₂.map (fun Q => es.filter
          (fun x => (g x).map Page.page_number == some Q.page_number) ++ [Q]) := by
        apply List.map_congr_left
        intro Q hQ
        rw [List.filter_append,
          show [e].filter (fun x =>
            (g x).map Page.page_number == some Q.page_number) = [] from by
              simp [List.filter_eq_nil_iff, htgtg]
              exact hPnotO₂ Q hQ,
          List.append_nil]
      have hblkP : (es ++ [e]).filter
          (fun x => (g x).map Page.page_number == some P.page_number) =
          es.filter
            (fun x => (g x).map Page.page_number == some P.page_number) ++ [e] := by
        rw [List.filter_append]
        congr 1
        simp [htgtg]
      have hbend' : (es ++ [e]).filter (fun x => (g x).isNone) =
          es.filter (fun x => (g x).isNone) := by
        rw [List.filter_append,
          show [e].filter (fun x => (g x).isNone) = [] from by simp [htgtg],
          List.append_nil]
      rw [hblk₁, hblk₂, hblkP, hbend']
      simp [List.append_assoc]

theorem interleave_nil (ordered : List Page) : interleave ordered [] = ordered := by
  unfold interleave
  simp only [List.filter_nil, List.append_nil, List.nil_append]
  exact flatten_map_singleton ordered

theorem reinsert_fold_interleave (ordered orig empty : List Page)
    (hch : List.Chain' (· < ·) (orig.map Page.page_number))
    (hOrdN : ∀ P ∈ ordered, P.page_number ∈ orig.map Page.page_number)
    (hOrdNodup : (ordered.map Page.page_number).Nodup)
    (hEmpN : ∀ x ∈ empty, x.page_number ∈ orig.map Page.page_number)
    (hDisj : ∀ x ∈ empty, ∀ P ∈ ordered, x.page_number ≠ P.page_number) :
    ∀ es : List Page, (∀ x ∈ es, x ∈ empty) →
      es.foldl (reinsertStep orig ordered) ordered = interleave ordered es := by
  intro es
  induction es using List.reverseRecOn with
  | nil =>
    intro _
    exact (interleave_nil ordered).symm
  | append_singleton es e ih =>
    intro hsub
    rw [List.foldl_concat,
      ih (fun x hx => hsub x (List.mem_append_left _ hx))]
    exact reinsertStep_interleave ordered orig empty hch hOrdN hOrdNodup hEmpN hDisj es
      (fun x hx => hsub x (List.mem_append_left _ hx)) e (hsub e (by simp))

theorem filter_flatten_blocks (f : Page → List Page)
    (hf : ∀ P x, x ∈ f P → x.is_empty = true) :
    ∀ (l : List Page), (∀ P ∈ l, P.is_empty = false) →
      ((l.map (fun P => f P ++ [P])).flatten).filter (fun p => !p.is_empty) = l := by
  intro l
  induction l with
  | nil => intro _; rfl
  | cons P rest ih =>
    intro h
    rw [List.map_cons, List.flatten_cons, List.filter_append, List.filter_append,
      List.filter_eq_nil_iff.2 (fun a ha => by simp [hf P a ha]),
      show [P].filter (fun p => !p.is_empty) = [P] from by
        simp [h P (List.mem_cons_self P rest)],
      ih (fun Q hQ => h Q (List.mem_cons_of_mem P hQ))]
    rfl

theorem filter_interleave_nonEmpty (ordered processed : List Page)
    (hOrdE : ∀ P ∈ ordered, P.is_empty = false)
    (hPrE : ∀ x ∈ processed, x.is_empty = true) :
    (interleave ordered processed).filter (fun p => !p.is_empty) = ordered := by
  unfold interleave
  rw [List.filter_append,
    show (processed.filter (fun e => (tgtOf ordered e).isNone)).filter
        (fun p => !p.is_empty) = [] from
      List.filter_eq_nil_iff.2 (fun a ha => by
        simp [hPrE a (List.mem_of_mem_filter ha)]),
    List.append_nil]
  exact filter_flatten_blocks _ (fun P x hx => hPrE x (List.mem_of_mem_filter hx))
    ordered hOrdE

/-- C3: under the PageRecord data-model invariants (the original full sequence
carries strictly increasing page numbers — extraction numbers pages 1..N in
scan order — the reordered pages are the non-empty ones with distinct numbers
drawn from it, and the empty pages are its empty ones), `_reinsert_empty_pages`
(a) never alters the relative order of the reordered non-empty pages: removing
the empty pages from the output yields exactly the input reordered sequence;
and (b) places each empty page in the block immediately before the first page
of the reordered sequence whose original page number exceeds the empty page's
(`tgtOf`; within one block, empty pages keep their list order), appending the
empty pages without such a page at the end — the `interleave` shape. -/
theorem claim_C3_empty_reinsertion (ordered empty orig : List Page)
    (hch : List.Chain' (· < ·) (orig.map Page.page_number))
    (hOrdE : ∀ P ∈ ordered, P.is_empty = false)
    (hOrdN : ∀ P ∈ ordered, P.page_number ∈ orig.map Page.page_number)
    (hOrdNodup : (ordered.map Page.page_number).Nodup)
    (hEmpE : ∀ x ∈ empty, x.is_empty = true)
    (hEmpN : ∀ x ∈ empty, x.page_number ∈ orig.map Page.page_number)
    (hDisj : ∀ x ∈ empty, ∀ P ∈ ordered, x.page_number ≠ P.page_number) :
    reinsertEmptyPages ordered empty orig = interleave ordered empty ∧
    (reinsertEmptyPages ordered empty orig).filter (fun p => !p.is_empty) = ordered := by
  have h1 : reinsertEmptyPages ordered empty orig = interleave ordered empty := by
    unfold reinsertEmptyPages
    split
    · next he =>
      rw [List.isEmpty_iff] at he
      subst he
      exact (interleave_nil ordered).symm
    · exact reinsert_fold_interleave ordered orig empty hch hOrdN hOrdNodup hEmpN hDisj
        empty (fun x hx => hx)
  rw [h1]
  exact ⟨rfl, filter_interleave_nonEmpty ordered empty hOrdE hEmpE⟩

/-- Witness for C3: one non-empty page between two empty ones. -/
theorem claim_C3_witness :
    reinsertEmptyPages [mkPage 2 "" false] [mkPage 1 "" true, mkPage 3 "" true]
        [mkPage 1 "" true, mkPage 2 "" false, mkPage 3 "" true] =
      interleave [mkPage 2 "" false] [mkPage 1 "" true, mkPage 3 "" true] ∧
    (reinsertEmptyPages [mkPage 2 "" false] [mkPage 1 "" true, mkPage 3 "" true]
        [mkPage 1 "" true, mkPage 2 "" false, mkPage 3 "" true]).filter
      (fun p => !p.is_empty) = [mkPage 2 "" false] :=
  claim_C3_empty_reinsertion _ _ _
    (by norm_num [mkPage, List.chain'_cons, List.chain'_singleton])
    (by decide) (by decide) (by decide) (by decide) (by decide) (by decide)

/-! ### `determine_page_order`: in-place mutation of the caller's pages -/

theorem combine_pid_none (pages : List Page) (llmOrder : OrderResult) (scores : Scores)
    (h2 : 2 ≤ pages.length) :
    ∀ q ∈ combineOrderingResults pages llmOrder scores, q.pid = none := by
  obtain ⟨idxs, _, heq⟩ := combine_eq_map_perm pages llmOrder scores h2
  rw [heq]
  intro q hq
  obtain ⟨i, _, rfl⟩ := List.mem_map.1 hq
  rfl

theorem mem_fold_reinsert (orig ordered : List Page) (q : Page) :
    ∀ (es init : List Page), q ∈ es.foldl (reinsertStep orig ordered) init →
      q ∈ init ∨ q ∈ es := by
  intro es
  induction es with
  | nil =>
    intro init h
    exact Or.inl h
  | cons e rest ih =>
    intro init h
    rw [List.foldl_cons] at h
    rcases ih (reinsertStep orig ordered init e) h with h' | h'
    · unfold reinsertStep at h'
      cases hd : dictPos orig e.page_number with
      | none =>
        rw [hd] at h'
        exact Or.inl h'
      | some pe =>
        rw [hd] at h'
        dsimp only at h'
        rcases List.mem_cons.1 ((pyInsert_perm init _ e).mem_iff.1 h') with h'' | h''
        · exact Or.inr (by rw [h'']; exact List.mem_cons_self e rest)
        · exact Or.inl h''
    · exact Or.inr (List.mem_cons_of_mem e h')

theorem mem_reinsertEmptyPages (ordered empty orig : List Page) (q : Page)
    (h : q ∈ reinsertEmptyPages ordered empty orig) : q ∈ ordered ∨ q ∈ empty := by
  unfold reinsertEmptyPages at h
  split at h
  · exact Or.inl h
  · exact mem_fold_reinsert orig ordered q empty ordered h

theorem mem_setMissingIndices (l : List Page) (q : Page) (h : q ∈ setMissingIndices l) :
    ∃ r ∈ l, q.page_number = r.page_number ∧ q.text = r.text ∧
      q.is_empty = r.is_empty ∧ q.confidence = r.confidence ∧ q.pid = r.pid ∧
      (q.original_index = r.original_index ∨ r.original_index = none) := by
  unfold setMissingIndices at h
  obtain ⟨ip, hip, rfl⟩ := List.mem_map.1 h
  have hr : ip.2 ∈ l := by
    rw [← List.enum_map_snd l]
    exact List.mem_map_of_mem Prod.snd hip
  refine ⟨ip.2, hr, ?_⟩
  split
  · next he => exact ⟨rfl, rfl, rfl, rfl, rfl, Or.inr he⟩
  · exact ⟨rfl, rfl, rfl, rfl, rfl, Or.inl rfl⟩

/-- C9 (amended): after `determine_page_order` returns, every dictionary of the
caller's input list still holds its original `page_number`, `text`,
`is_empty` and `confidence` values, and its object identity; non-empty input
pages are entirely untouched (they enter the result only as copies); the only
in-place change is that an *empty* input page that lacked the
`original_index` key may have gained one (set by the final annotation loop,
which reaches the empty pages because `_reinsert_empty_pages` aliases them
into the result list).  The claim as frozen — that no input dictionary is
mutated at all — fails on empty pages, see the counterexample. -/
theorem claim_C9_mutation_amended (pages : List Page) (sim : Nat → Nat → ℚ)
    (oracle : OracleOutcome)
    (hinj : ∀ p ∈ pages, ∀ q ∈ pages, p.pid = q.pid → p.pid ≠ none → p = q) :
    (inputPagesAfter pages sim oracle).length = pages.length ∧
    ∀ k, k < pages.length →
      ((inputPagesAfter pages sim oracle).getD k default).page_number =
        (pages.getD k default).page_number ∧
      ((inputPagesAfter pages sim oracle).getD k default).text =
        (pages.getD k default).text ∧
      ((inputPagesAfter pages sim oracle).getD k default).is_empty =
        (pages.getD k default).is_empty ∧
      ((inputPagesAfter pages sim oracle).getD k default).confidence =
        (pages.getD k default).confidence ∧
      ((inputPagesAfter pages sim oracle).getD k default).pid =
        (pages.getD k default).pid ∧
      (((inputPagesAfter pages sim oracle).getD k default).original_index =
          (pages.getD k default).original_index ∨
        (pages.getD k default).original_index = none) ∧
      ((pages.getD k default).is_empty = false →
        (inputPagesAfter pages sim oracle).getD k default = pages.getD k default) := by
  unfold inputPagesAfter
  split
  · exact ⟨rfl, fun k hk => ⟨rfl, rfl, rfl, rfl, rfl, Or.inl rfl, fun _ => rfl⟩⟩
  · next hlt =>
    push_neg at hlt
    constructor
    · rw [List.length_map]
    · intro k hk
      have hgetD : ∀ (f : Page → Page), (pages.map f).getD k default =
          f (pages.getD k default) := by
        intro f
        rw [List.getD_eq_getElem (pages.map f) default
            (by rw [List.length_map]; exact hk),
          List.getD_eq_getElem pages default hk, List.getElem_map]
      rw [hgetD]
      have hpmem : pages.getD k default ∈ pages := by
        rw [List.getD_eq_getElem pages default hk]
        exact List.getElem_mem hk
      cases hpid : (pages.getD k default).pid with
      | none =>
        exact ⟨rfl, rfl, rfl, rfl, hpid, Or.inl rfl, fun _ => rfl⟩
      | some kid =>
        dsimp only
        cases hfq : (determinePageOrder pages sim oracle).ordered_pages.find?
            (fun q => q.pid == some kid) with
        | none =>
          rw [Option.getD_none]
          exact ⟨rfl, rfl, rfl, rfl, hpid, Or.inl rfl, fun _ => rfl⟩
        | some q =>
          rw [Option.getD_some]
          have hqmem : q ∈ (determinePageOrder pages sim oracle).ordered_pages :=
            List.mem_of_find?_eq_some hfq
          have hqpid : q.pid = some kid := by
            have := List.find?_some hfq
            rwa [beq_iff_eq] at this
          have hq' : q ∈ setMissingIndices (reinsertEmptyPages
              (combineOrderingResults (pages.filter (fun p => !p.is_empty))
                (llmDetermineOrder (pages.filter (fun p => !p.is_empty))
                  (calculateTransitionScores (pages.filter (fun p => !p.is_empty)) sim)
                  oracle)
                (calculateTransitionScores (pages.filter (fun p => !p.is_empty)) sim))
              (pages.filter (fun p => p.is_empty)) pages) := by
            have : (determinePageOrder pages sim oracle).ordered_pages =
                setMissingIndices (reinsertEmptyPages
                  (combineOrderingResults (pages.filter (fun p => !p.is_empty))
                    (llmDetermineOrder (pages.filter (fun p => !p.is_empty))
                      (calculateTransitionScores (pages.filter (fun p => !p.is_empty)) sim)
                      oracle)
                    (calculateTransitionScores (pages.filter (fun p => !p.is_empty)) sim))
                  (pages.filter (fun p => p.is_empty)) pages) := by
              unfold determinePageOrder
              rw [if_neg (by omega)]
            rwa [this] at hqmem
          obtain ⟨r, hr, hq1, hq2, hq3, hq4, hq5, hq6⟩ := mem_setMissingIndices _ q hq'
          have hrempty : r ∈ pages.filter (fun p => p.is_empty) := by
            rcases mem_reinsertEmptyPages _ _ _ r hr with hcomb | hemp
            · have hrn := combine_pid_none (pages.filter (fun p => !p.is_empty)) _ _ hlt r hcomb
              rw [hrn] at hq5
              rw [hq5] at hqpid
              cases hqpid
            · exact hemp
          have hrp : r = pages.getD k default := by
            refine hinj r (List.mem_of_mem_filter hrempty) (pages.getD k default) hpmem ?_ ?_
            · rw [← hq5, hqpid, hpid]
            · rw [← hq5, hqpid]
              simp
          subst hrp
          refine ⟨hq1, hq2, hq3, hq4, hqpid, hq6, ?_⟩
          intro hne
          have hre : (pages.getD k default).is_empty = true := (List.mem_filter.1 hrempty).2
          rw [hre] at hne
          exact Bool.noConfusion hne

/-- Witness for C9 (amended): the three-page input `c9Pages` with a valid
parsed oracle order. -/
theorem claim_C9_witness :
    (inputPagesAfter c9Pages (fun _ _ => 0)
      (OracleOutcome.response (some [1, 0]) "r")).length = c9Pages.length :=
  (claim_C9_mutation_amended c9Pages (fun _ _ => 0)
    (OracleOutcome.response (some [1, 0]) "r") (by decide)).1

/-- C9 counterexample: running the pipeline on `c9Pages` (two non-empty pages
and one empty page, oracle order [1, 0]) mutates the caller's empty page dict
in place: it gains `original_index = 2` from the final annotation loop, so the
input list does not hold exactly the fields it held on entry. -/
theorem claim_C9_counterexample :
    ((inputPagesAfter c9Pages (fun _ _ => 0)
        (OracleOutcome.response (some [1, 0]) "r")).getD 2 default).original_index =
      some 2 ∧
    (c9Pages.getD 2 default).original_index = none ∧
    inputPagesAfter c9Pages (fun _ _ => 0) (OracleOutcome.response (some [1, 0]) "r") ≠
      c9Pages :=
  ⟨by decide, by decide, by decide⟩
